import Mathlib

/-!
Shallow embedding of the EdFS storage engine (edfs-common.c) and the parts of
its FUSE front end (edfuse.c) referenced by the specification.

Modelling conventions:
  - The image is a typed store: the superblock, the bitmap region (a byte per
    index), the inode table (a record per inumber) and the data region (a byte
    list per block number).  Positioned reads and writes against the backing
    file are modelled as lookups and point updates of these components; the
    model has no short reads or I/O failures, so the errno-propagation branches
    of the C code that fire only on failed pread/pwrite are not reachable here.
  - Machine integers are Nat; bytes are Nat values < 256; return codes are Int
    (negative errno values, exactly as in the C code).
  - C loops are expressed as structurally recursive functions.  Where a loop
    advances by a data-dependent stride, an explicit iteration-count argument
    (an upper bound on the remaining iterations) drives the recursion; it is
    always called with a sufficient bound, matching the C loop exactly.
  - The header edfs-common.h is not part of the sources.  Constants taken from
    it (EDFS_BLOCK_INVALID, EDFS_INODE_N_DIRECT_BLOCKS, the filename capacity,
    the inode type tags, the directory-entry layout) are modelled from the
    spec, as documented at their definitions.
-/

/-- Errno values used by the sources (from errno.h). -/
def errNoEnt : Int := 2

def errIo : Int := 5

def errInval : Int := 22

def errNoSpc : Int := 28

def errExist : Int := 17

def errNameTooLong : Int := 36

def errNoMsg : Int := 42

def errIsDir : Int := 21

/-- Modelled from the spec: the invalid block / invalid directory-entry
inumber sentinel.  The spec describes a cleared directory entry as having
inumber 0 and the code compares inumbers against EDFS_BLOCK_INVALID and
against the literal 0 interchangeably, so the sentinel is 0. -/
def EDFS_BLOCK_INVALID : Nat := 0

/-- Modelled from the spec: the fixed number of direct block slots in an
inode ("direct block numbers (fixed count)"); the exact count is taken to
be 4, it does not affect any claim. -/
def EDFS_INODE_N_DIRECT_BLOCKS : Nat := 4

/-- Modelled from the spec: filename capacity, "59 visible characters +
terminator"; edfs_check_filename rejects lengths above 59. -/
def EDFS_FILENAME_SIZE : Nat := 60

/-- Modelled from the spec: a directory entry record is "inumber (4 bytes) +
filename (fixed-length, NUL-padded)", 64 bytes in total. -/
def EDFS_DIR_ENTRY_SIZE : Nat := 64

/-- Modelled from the spec: inode type tags; FREE is the all-zero state an
explicitly cleared record has. -/
def EDFS_INODE_TYPE_FREE : Nat := 0

/-- Modelled from the spec: inode type tag for regular files. -/
def EDFS_INODE_TYPE_FILE : Nat := 1

/-- Modelled from the spec: inode type tag for directories. -/
def EDFS_INODE_TYPE_DIRECTORY : Nat := 2

/-- The superblock fields the embedded code reads (edfs_super_block_t).
The magic number and the offsets that only locate regions inside the flat
image file are absorbed by the typed store and not represented. -/
structure edfs_super_block_t where
  block_size : Nat
  n_blocks : Nat
  bitmap_start : Nat
  inode_table_n_inodes : Nat
  root_inumber : Nat
deriving DecidableEq

/-- On-disk inode record (edfs_disk_inode_t): type tag, size in bytes, the
direct block numbers and the single indirect block number. -/
structure edfs_disk_inode_t where
  type : Nat
  size : Nat
  direct : List Nat
  indirect : Nat
deriving DecidableEq

/-- The filesystem image: superblock plus the three on-disk regions.
bitmapBytes i is the byte at file offset bitmap_start + i. -/
structure edfs_image_t where
  sb : edfs_super_block_t
  bitmapBytes : Nat → Nat
  inodeTable : Nat → edfs_disk_inode_t
  blockData : Nat → List Nat

/-- A decoded directory entry (edfs_dir_entry_t): inumber plus filename. -/
structure edfs_dir_entry_t where
  inumber : Nat
  filename : List Nat
deriving DecidableEq

/-- Pad (or cut) a byte list to exactly n bytes, zero-filled; models reading
exactly n bytes from a region of the image. -/
def padTo (n : Nat) (l : List Nat) : List Nat :=
  (l ++ List.replicate n 0).take n

/-- memcpy dst+i src len: overwrite dst at positions [i, i + src.length). -/
def splice (dst : List Nat) (i : Nat) (src : List Nat) : List Nat :=
  dst.take i ++ src ++ dst.drop (i + src.length)

/-- Read a 32-bit little-endian value at entry index j of a byte list; models
reinterpreting a block as an array of 4-byte block numbers / inumbers. -/
def le32At (bytes : List Nat) (j : Nat) : Nat :=
  bytes.getD (4 * j) 0 + 256 * bytes.getD (4 * j + 1) 0 +
    65536 * bytes.getD (4 * j + 2) 0 + 16777216 * bytes.getD (4 * j + 3) 0

/-- Encode a 32-bit value as 4 little-endian bytes. -/
def enc32 (k : Nat) : List Nat :=
  [k % 256, k / 256 % 256, k / 65536 % 256, k / 16777216 % 256]

/-- The C string held in a byte buffer: the bytes up to the first NUL. -/
def cString (l : List Nat) : List Nat :=
  l.takeWhile (fun c => c != 0)

/-- Decode a 64-byte directory-entry record: 4-byte inumber then the
NUL-terminated filename. -/
def decodeDirEntry (bytes : List Nat) : edfs_dir_entry_t :=
  { inumber := le32At bytes 0,
    filename := cString ((bytes.drop 4).take (EDFS_FILENAME_SIZE)) }

/-- The record edfs_add_dir_entry builds before writing: the inumber and the
name with its NUL terminator; the bytes after the terminator (uninitialized
stack memory in the C code) are modelled as zero. -/
def encodeDirEntry (inumber : Nat) (name : List Nat) : List Nat :=
  enc32 inumber ++ padTo EDFS_FILENAME_SIZE (name ++ [0])

/-- Block-number resolution shared by edfs_read_inode_data_blk and
edfs_write_inode_data_blk: a direct slot below the direct count, otherwise an
entry of the indirect block (error -EIO if there is no indirect block). -/
def edfs_resolve_blk (img : edfs_image_t) (inode : edfs_disk_inode_t)
    (id : Nat) : Except Int Nat :=
  if id < EDFS_INODE_N_DIRECT_BLOCKS then
    Except.ok (inode.direct.getD id 0)
  else if inode.indirect = EDFS_BLOCK_INVALID then
    Except.error (-errIo)
  else
    Except.ok (le32At (padTo img.sb.block_size (img.blockData inode.indirect))
      (id - EDFS_INODE_N_DIRECT_BLOCKS))

/-- Outcome of a block-level read: error code, hole (return value 0 in C), or
one block of bytes (return value BLK_SIZE in C). -/
inductive BlkRead where
  | err : Int → BlkRead
  | hole : BlkRead
  | ok : List Nat → BlkRead
deriving DecidableEq

/-- edfs_read_inode_data_blk: resolve logical block id and read one full
block; an unallocated block is reported as a hole, not an error. -/
def edfs_read_inode_data_blk (img : edfs_image_t) (inode : edfs_disk_inode_t)
    (id : Nat) : BlkRead :=
  match edfs_resolve_blk img inode id with
  | Except.error e => BlkRead.err e
  | Except.ok block =>
    if block = EDFS_BLOCK_INVALID then BlkRead.hole
    else BlkRead.ok (padTo img.sb.block_size (img.blockData block))

/-- edfs_write_inode_data_blk: resolve logical block id and overwrite the
whole physical block.  Returns 0 without writing when the slot is
unallocated (the function does not allocate), BLK_SIZE on success. -/
def edfs_write_inode_data_blk (img : edfs_image_t) (inode : edfs_disk_inode_t)
    (id : Nat) (buf : List Nat) : Int × edfs_image_t :=
  match edfs_resolve_blk img inode id with
  | Except.error e => (e, img)
  | Except.ok block =>
    if block = EDFS_BLOCK_INVALID then (0, img)
    else ((img.sb.block_size : Int),
      { img with blockData := fun b =>
          if b = block then padTo img.sb.block_size buf else img.blockData b })

/-- Loop body of edfs_read_inode_data: pos runs over [off, off + size) in
block-aligned strides; n is the number of bytes still to transfer (so that
pos + n = off + size) and also bounds the remaining iterations (each stride
is at least one byte), which drives the structural recursion. -/
def edfs_read_loop (img : edfs_image_t) (inode : edfs_disk_inode_t)
    (size off : Nat) : Nat → Nat → Nat → List Nat → Int × List Nat
  | 0, _, _, buf => ((size : Int), buf)
  | fuel + 1, n, pos, buf =>
    if n = 0 then ((size : Int), buf)
    else
      match edfs_read_inode_data_blk img inode (pos / img.sb.block_size) with
      | BlkRead.err e => (e, buf)
      | BlkRead.hole => (0, buf)
      | BlkRead.ok blk_buf =>
        edfs_read_loop img inode size off fuel
          (n - min n (img.sb.block_size - pos % img.sb.block_size))
          (pos + min n (img.sb.block_size - pos % img.sb.block_size))
          (splice buf (pos - off)
            ((blk_buf.drop (pos % img.sb.block_size)).take
              (min n (img.sb.block_size - pos % img.sb.block_size))))

/-- edfs_read_inode_data: decompose [off, off + size) into block-aligned
sub-ranges and copy each from its block into buf.  Returns size and the
filled buffer on full success; returns the first block-read result that is
not positive (0 for a hole, a negative errno for an error) otherwise. -/
def edfs_read_inode_data (img : edfs_image_t) (inode : edfs_disk_inode_t)
    (buf : List Nat) (size off : Nat) : Int × List Nat :=
  edfs_read_loop img inode size off size size off buf

/-- Loop body of edfs_write_inode_data: read-modify-write per covered block.
The image is threaded through the loop; n and fuel behave exactly as in
edfs_read_loop. -/
def edfs_write_loop (inode : edfs_disk_inode_t) (buf : List Nat)
    (size off : Nat) : Nat → Nat → Nat → edfs_image_t → Int × edfs_image_t
  | 0, _, _, img => ((size : Int), img)
  | fuel + 1, n, pos, img =>
    if n = 0 then ((size : Int), img)
    else
      match edfs_read_inode_data_blk img inode (pos / img.sb.block_size) with
      | BlkRead.err e => (e, img)
      | BlkRead.hole => (0, img)
      | BlkRead.ok blk_buf =>
        let w := edfs_write_inode_data_blk img inode (pos / img.sb.block_size)
          (splice blk_buf (pos % img.sb.block_size)
            ((buf.drop (pos - off)).take
              (min n (img.sb.block_size - pos % img.sb.block_size))))
        if w.1 ≤ 0 then (w.1, w.2)
        else
          edfs_write_loop inode buf size off fuel
            (n - min n (img.sb.block_size - pos % img.sb.block_size))
            (pos + min n (img.sb.block_size - pos % img.sb.block_size))
            w.2

/-- edfs_write_inode_data: read-modify-write of every covered block.  It
stops with return value 0 at the first unallocated block (no allocation
happens), with a negative errno on error, and returns size on success.  It
never touches the inode record, the bitmap, or inode.size. -/
def edfs_write_inode_data (img : edfs_image_t) (inode : edfs_disk_inode_t)
    (buf : List Nat) (size off : Nat) : Int × edfs_image_t :=
  edfs_write_loop inode buf size off size size off img

/-- edfs_bitmap_clear: read-modify-write of the single bitmap byte holding
the block's bit, clearing it; -EINVAL for an out-of-range block number. -/
def edfs_bitmap_clear (img : edfs_image_t) (block : Nat) : Int × edfs_image_t :=
  if block ≥ img.sb.n_blocks then (-errInval, img)
  else
    (0, { img with bitmapBytes := fun j =>
      if j = block / 8 then
        img.bitmapBytes (block / 8) % 256 &&& (255 ^^^ (1 <<< (block % 8)))
      else img.bitmapBytes j })

/-- edfs_bitmap_set: read-modify-write of the single bitmap byte holding the
block's bit, setting it; -EINVAL for an out-of-range block number. -/
def edfs_bitmap_set (img : edfs_image_t) (block : Nat) : Int × edfs_image_t :=
  if block ≥ img.sb.n_blocks then (-errInval, img)
  else
    (0, { img with bitmapBytes := fun j =>
      if j = block / 8 then
        img.bitmapBytes (block / 8) % 256 ||| (1 <<< (block % 8))
      else img.bitmapBytes j })

/-- edfs_read_inode: -ENOENT when the inumber is outside the inode table,
otherwise the stored record. -/
def edfs_read_inode (img : edfs_image_t) (inumber : Nat) :
    Except Int edfs_disk_inode_t :=
  if inumber ≥ img.sb.inode_table_n_inodes then Except.error (-errNoEnt)
  else Except.ok (img.inodeTable inumber)

/-- edfs_write_inode: -ENOENT when the inumber is outside the inode table,
otherwise the image with the record stored at that slot. -/
def edfs_write_inode (img : edfs_image_t) (inumber : Nat)
    (r : edfs_disk_inode_t) : Except Int edfs_image_t :=
  if inumber ≥ img.sb.inode_table_n_inodes then Except.error (-errNoEnt)
  else Except.ok { img with inodeTable := fun j =>
    if j = inumber then r else img.inodeTable j }

/-- edfs_clear_inode: write an all-zero record (type FREE). -/
def edfs_clear_inode (img : edfs_image_t) (inumber : Nat) :
    Except Int edfs_image_t :=
  edfs_write_inode img inumber
    { type := EDFS_INODE_TYPE_FREE, size := 0,
      direct := List.replicate EDFS_INODE_N_DIRECT_BLOCKS 0, indirect := 0 }

/-- Scan of edfs_find_free_inode: i is the current inumber, remaining the
number of loop iterations left (the loop runs while i < inode count, so it
is entered with remaining = count - 1 at i = 1). -/
def edfs_find_free_loop (img : edfs_image_t) : Nat → Nat → Nat
  | _, 0 => 0
  | i, remaining + 1 =>
    if (img.inodeTable i).type = EDFS_INODE_TYPE_FREE then i
    else edfs_find_free_loop img (i + 1) remaining

/-- edfs_find_free_inode: linear scan from inumber 1; first inumber whose
stored type is FREE, or 0 when none exists below the table bound. -/
def edfs_find_free_inode (img : edfs_image_t) : Nat :=
  edfs_find_free_loop img 1 (img.sb.inode_table_n_inodes - 1)

/-- edfs_new_inode: find a free inumber (-ENOSPC when there is none) and
produce the zeroed in-memory record with that inumber and the given type.
Nothing is written to disk. -/
def edfs_new_inode (img : edfs_image_t) (t : Nat) :
    Except Int (Nat × edfs_disk_inode_t) :=
  if edfs_find_free_inode img = 0 then Except.error (-errNoSpc)
  else Except.ok (edfs_find_free_inode img,
    { type := t, size := 0,
      direct := List.replicate EDFS_INODE_N_DIRECT_BLOCKS 0, indirect := 0 })

/-- edfs_check_filename: 0 for a valid name, -EINVAL for an empty name or a
character that is not alphanumeric, space or period, -ENAMETOOLONG for a
name longer than 59 bytes. -/
def edfs_check_filename (name : List Nat) : Int :=
  if name.length = 0 then -errInval
  else if name.length > 59 then -errNameTooLong
  else if name.all (fun c =>
      (65 ≤ c && c ≤ 90) || (97 ≤ c && c ≤ 122) ||
      (48 ≤ c && c ≤ 57) || c == 32 || c == 46) then 0
  else -errInval

/-- One directory-entry read as performed by the scans of edfuse.c: 64 bytes
at slot index i of the directory's file data (the scratch record the bytes
are read into starts as zeros in the model; the C code leaves it
uninitialized, and never looks at it unless the read returned 64). -/
def edfs_dir_slot_read (img : edfs_image_t) (inode : edfs_disk_inode_t)
    (i : Nat) : Int × List Nat :=
  edfs_read_inode_data img inode (List.replicate EDFS_DIR_ENTRY_SIZE 0)
    EDFS_DIR_ENTRY_SIZE (i * EDFS_DIR_ENTRY_SIZE)

/-- Scan loop of edfs_add_dir_entry over slot indices [i, i + remaining):
errors abort the scan, a slot in a hole or with the invalid inumber becomes
the chosen offset if none was chosen yet, a name match yields -EEXIST. -/
def edfs_add_scan (img : edfs_image_t) (inode : edfs_disk_inode_t)
    (name : List Nat) : Nat → Nat → Option Nat → Except Int (Option Nat)
  | _, 0, acc => Except.ok acc
  | i, remaining + 1, acc =>
    let r := edfs_dir_slot_read img inode i
    if r.1 < 0 then Except.error r.1
    else if r.1 = 0 then
      edfs_add_scan img inode name (i + 1) remaining
        (if acc = none then some (i * EDFS_DIR_ENTRY_SIZE) else acc)
    else if (decodeDirEntry r.2).inumber = EDFS_BLOCK_INVALID then
      edfs_add_scan img inode name (i + 1) remaining
        (if acc = none then some (i * EDFS_DIR_ENTRY_SIZE) else acc)
    else if (decodeDirEntry r.2).filename = name then
      Except.error (-errExist)
    else
      edfs_add_scan img inode name (i + 1) remaining acc

/-- Number of directory-entry slots scanned by edfuse.c: directories use
their direct blocks only. -/
def edfs_n_dir_entries (img : edfs_image_t) : Nat :=
  EDFS_INODE_N_DIRECT_BLOCKS * img.sb.block_size / EDFS_DIR_ENTRY_SIZE

/-- edfs_add_dir_entry: validate the name, scan all slots (duplicate name:
-EEXIST; no reusable slot: -ENOMSG), then write the new entry at the first
reusable slot via edfs_write_inode_data (-EIO if that write is short, which
happens when the chosen slot lies in an unallocated block). -/
def edfs_add_dir_entry (img : edfs_image_t) (inode : edfs_disk_inode_t)
    (name : List Nat) (inumber : Nat) : Int × edfs_image_t :=
  if edfs_check_filename name ≠ 0 then (edfs_check_filename name, img)
  else
    match edfs_add_scan img inode name 0 (edfs_n_dir_entries img) none with
    | Except.error e => (e, img)
    | Except.ok none => (-errNoMsg, img)
    | Except.ok (some off) =>
      let w := edfs_write_inode_data img inode (encodeDirEntry inumber name)
        EDFS_DIR_ENTRY_SIZE off
      if w.1 < 0 then (w.1, w.2)
      else if w.1 ≠ (EDFS_DIR_ENTRY_SIZE : Int) then (-errIo, w.2)
      else (0, w.2)

/-- Directory scan inside edfs_find_inode over slots [i, i + remaining):
read errors and a completed scan both make the resolution fail (the C code
returns false for both), holes and entries with inumber 0 are skipped, the
first name match yields its inumber. -/
def edfs_lookup_scan (img : edfs_image_t) (inode : edfs_disk_inode_t)
    (name : List Nat) : Nat → Nat → Option Nat
  | _, 0 => none
  | i, remaining + 1 =>
    let r := edfs_dir_slot_read img inode i
    if r.1 < 0 then none
    else if r.1 = 0 then edfs_lookup_scan img inode name (i + 1) remaining
    else if (decodeDirEntry r.2).inumber = 0 then
      edfs_lookup_scan img inode name (i + 1) remaining
    else if (decodeDirEntry r.2).filename = name then
      some (decodeDirEntry r.2).inumber
    else edfs_lookup_scan img inode name (i + 1) remaining

/-- Placeholder for the uninitialized stack record edfs_find_inode starts
from; it is only visible when an inode read silently fails (out-of-range
inumber), which no claim exercises. -/
def uninitInode : edfs_disk_inode_t :=
  { type := 0, size := 0, direct := [], indirect := 0 }

/-- The descent step of edfs_find_inode: set the current inumber and read
the inode record; a failed read (out-of-range inumber) is ignored by the C
code, leaving the previous record bytes in place. -/
def edfs_descend (img : edfs_image_t) (cur : Nat × edfs_disk_inode_t)
    (inum : Nat) : Nat × edfs_disk_inode_t :=
  (inum, if inum < img.sb.inode_table_n_inodes then img.inodeTable inum
         else cur.2)

/-- Path-walking loop of edfs_find_inode.  The remaining path p is scanned
for the next separator (strchr); the component between the run of
separators and the next separator or the end of the string is looked up in
the current inode and the walk descends into the entry's inode.  fuel
bounds the remaining iterations (each consumes at least one byte of p) and
drives the structural recursion. -/
def edfs_walk (img : edfs_image_t) : Nat → (Nat × edfs_disk_inode_t) →
    List Nat → Option (Nat × edfs_disk_inode_t)
  | 0, _, _ => none
  | fuel + 1, cur, p =>
    match p.dropWhile (fun c => c != 47) with
    | [] => some cur
    | _ :: rest =>
      let q := rest.dropWhile (fun c => c == 47)
      let comp := q.takeWhile (fun c => c != 47)
      if comp = [] then some cur
      else if EDFS_FILENAME_SIZE ≤ comp.length then none
      else
        match edfs_lookup_scan img cur.2 comp 0 (edfs_n_dir_entries img) with
        | none => none
        | some inum =>
          edfs_walk img fuel (edfs_descend img cur inum) (q.drop comp.length)

/-- edfs_find_inode: require an absolute path, start from the root inode
named by the superblock and walk the components.  Byte 47 is the path
separator. -/
def edfs_find_inode (img : edfs_image_t) (path : List Nat) :
    Option (Nat × edfs_disk_inode_t) :=
  if path.length = 0 then none
  else if path.headD 0 ≠ 47 then none
  else edfs_walk img (path.length + 1)
    (edfs_descend img (img.sb.root_inumber, uninitInode) img.sb.root_inumber)
    path

/-- edfuse_read: resolve the path; reading at or past the inode size is
-EINVAL, directories are -EISDIR, unknown types -EIO; otherwise the length
is clamped to size - offset and delegated to edfs_read_inode_data. -/
def edfuse_read (img : edfs_image_t) (path : List Nat) (buf : List Nat)
    (size offset : Nat) : Int × List Nat :=
  match edfs_find_inode img path with
  | none => (-errNoEnt, buf)
  | some cur =>
    if cur.2.size ≤ offset then (-errInval, buf)
    else if cur.2.type = EDFS_INODE_TYPE_DIRECTORY then (-errIsDir, buf)
    else if cur.2.type ≠ EDFS_INODE_TYPE_FILE then (-errIo, buf)
    else
      edfs_read_inode_data img cur.2 buf
        (if cur.2.size - offset < size then cur.2.size - offset else size)
        offset

/-- The logical byte of a file at position p: the byte at p mod block size
of the block that p resolves to (0 when there is no such byte). -/
def edfs_file_byte (img : edfs_image_t) (inode : edfs_disk_inode_t)
    (p : Nat) : Nat :=
  match edfs_read_inode_data_blk img inode (p / img.sb.block_size) with
  | BlkRead.ok bs => bs.getD (p % img.sb.block_size) 0
  | _ => 0

/-- Change the type tag of inode i, leaving everything else in the image
unchanged; used to state that path resolution never inspects inode types. -/
def retypeInode (img : edfs_image_t) (i t : Nat) : edfs_image_t :=
  { img with inodeTable := fun j =>
      if j = i then { img.inodeTable j with type := t } else img.inodeTable j }

/-- Two inode records that agree on everything the block-addressing code
reads (size, direct slots, indirect slot), possibly differing in type. -/
def sameShape (a b : edfs_disk_inode_t) : Prop :=
  a.size = b.size ∧ a.direct = b.direct ∧ a.indirect = b.indirect

/-- Test image for the C1 counterexample: block size 4, block 1 holds four
bytes, all other blocks unallocated. -/
def imgA1 : edfs_image_t :=
  { sb := { block_size := 4, n_blocks := 10, bitmap_start := 0,
            inode_table_n_inodes := 4, root_inumber := 1 },
    bitmapBytes := fun _ => 0,
    inodeTable := fun _ => uninitInode,
    blockData := fun b => if b = 1 then [10, 11, 12, 13] else [] }

/-- File inode for the C1 counterexample: first logical block allocated
(block 1), second logical block a hole. -/
def inoA1 : edfs_disk_inode_t :=
  { type := EDFS_INODE_TYPE_FILE, size := 8, direct := [1, 0, 0, 0],
    indirect := 0 }

/-- Test image for the C1 witness: blocks 1 and 2 allocated. -/
def imgW1 : edfs_image_t :=
  { sb := { block_size := 4, n_blocks := 10, bitmap_start := 0,
            inode_table_n_inodes := 4, root_inumber := 1 },
    bitmapBytes := fun _ => 0,
    inodeTable := fun _ => uninitInode,
    blockData := fun b =>
      if b = 1 then [10, 11, 12, 13]
      else if b = 2 then [20, 21, 22, 23] else [] }

/-- File inode for the C1 witness: two allocated logical blocks. -/
def inoW1 : edfs_disk_inode_t :=
  { type := EDFS_INODE_TYPE_FILE, size := 8, direct := [1, 2, 0, 0],
    indirect := 0 }

/-- Test image for the C2 failing input. -/
def imgA2 : edfs_image_t :=
  { sb := { block_size := 64, n_blocks := 16, bitmap_start := 0,
            inode_table_n_inodes := 8, root_inumber := 1 },
    bitmapBytes := fun _ => 0,
    inodeTable := fun _ => uninitInode,
    blockData := fun _ => [] }

/-- Freshly allocated file inode for the C2 failing input: no blocks. -/
def inoA2 : edfs_disk_inode_t :=
  { type := EDFS_INODE_TYPE_FILE, size := 0, direct := [0, 0, 0, 0],
    indirect := 0 }

/-- Test image for the C3 counterexample: every bitmap byte is 1 (bit 0 of
every byte already set). -/
def imgA3 : edfs_image_t :=
  { sb := { block_size := 64, n_blocks := 16, bitmap_start := 0,
            inode_table_n_inodes := 4, root_inumber := 1 },
    bitmapBytes := fun _ => 1,
    inodeTable := fun _ => uninitInode,
    blockData := fun _ => [] }

/-- Test image for the C3 witness: all bitmap bytes zero. -/
def imgW3 : edfs_image_t :=
  { sb := { block_size := 64, n_blocks := 16, bitmap_start := 0,
            inode_table_n_inodes := 4, root_inumber := 1 },
    bitmapBytes := fun _ => 0,
    inodeTable := fun _ => uninitInode,
    blockData := fun _ => [] }

/-- Test image for the C4 counterexample: nothing allocated. -/
def imgA4 : edfs_image_t :=
  { sb := { block_size := 64, n_blocks := 16, bitmap_start := 0,
            inode_table_n_inodes := 8, root_inumber := 1 },
    bitmapBytes := fun _ => 0,
    inodeTable := fun _ => uninitInode,
    blockData := fun _ => [] }

/-- Directory inode for the C4 counterexample: freshly created directory,
all direct blocks unallocated, so every entry slot is a hole. -/
def inoA4 : edfs_disk_inode_t :=
  { type := EDFS_INODE_TYPE_DIRECTORY, size := 0, direct := [0, 0, 0, 0],
    indirect := 0 }

/-- Test image for the C4 witness, duplicate case: block 8 holds the single
directory entry {inumber 2, name "ab"}. -/
def imgW4a : edfs_image_t :=
  { sb := { block_size := 64, n_blocks := 16, bitmap_start := 0,
            inode_table_n_inodes := 8, root_inumber := 1 },
    bitmapBytes := fun _ => 0,
    inodeTable := fun _ => uninitInode,
    blockData := fun b => if b = 8 then encodeDirEntry 2 [97, 98] else [] }

/-- Directory inode for the C4 witness cases: one allocated direct block
(block 8). -/
def inoW4 : edfs_disk_inode_t :=
  { type := EDFS_INODE_TYPE_DIRECTORY, size := 64, direct := [8, 0, 0, 0],
    indirect := 0 }

/-- Test image for the C4 witness, success case: block 8 holds one cleared
(reusable) directory entry. -/
def imgW4b : edfs_image_t :=
  { sb := { block_size := 64, n_blocks := 16, bitmap_start := 0,
            inode_table_n_inodes := 8, root_inumber := 1 },
    bitmapBytes := fun _ => 0,
    inodeTable := fun _ => uninitInode,
    blockData := fun b => if b = 8 then List.replicate 64 0 else [] }

/-- Test image for the C5 counterexample and witness: the root directory
(inode 1) has an entry "f" naming inode 2; inode 2 is a regular FILE whose
data block, read as a directory, contains an entry "x" naming inode 3. -/
def imgA5 : edfs_image_t :=
  { sb := { block_size := 64, n_blocks := 16, bitmap_start := 0,
            inode_table_n_inodes := 5, root_inumber := 1 },
    bitmapBytes := fun _ => 0,
    inodeTable := fun j =>
      if j = 1 then
        { type := EDFS_INODE_TYPE_DIRECTORY, size := 64,
          direct := [6, 0, 0, 0], indirect := 0 }
      else if j = 2 then
        { type := EDFS_INODE_TYPE_FILE, size := 64,
          direct := [7, 0, 0, 0], indirect := 0 }
      else if j = 3 then
        { type := EDFS_INODE_TYPE_FILE, size := 3,
          direct := [0, 0, 0, 0], indirect := 0 }
      else uninitInode,
    blockData := fun b =>
      if b = 6 then encodeDirEntry 2 [102]
      else if b = 7 then encodeDirEntry 3 [120] else [] }

/-- Test image for the C6 witness. -/
def imgA6 : edfs_image_t :=
  { sb := { block_size := 64, n_blocks := 16, bitmap_start := 0,
            inode_table_n_inodes := 4, root_inumber := 1 },
    bitmapBytes := fun _ => 0,
    inodeTable := fun _ => uninitInode,
    blockData := fun _ => [] }

/-- Inode record written and read back in the C6 witness. -/
def recA6 : edfs_disk_inode_t :=
  { type := EDFS_INODE_TYPE_FILE, size := 123, direct := [3, 4, 0, 0],
    indirect := 5 }

/-- Test image for the C7 witness: inode 1 in use, inode 2 free. -/
def imgA7 : edfs_image_t :=
  { sb := { block_size := 64, n_blocks := 16, bitmap_start := 0,
            inode_table_n_inodes := 4, root_inumber := 1 },
    bitmapBytes := fun _ => 0,
    inodeTable := fun j =>
      if j = 1 then
        { type := EDFS_INODE_TYPE_FILE, size := 7, direct := [3, 0, 0, 0],
          indirect := 0 }
      else uninitInode,
    blockData := fun _ => [] }

/-- Test image for the C8 witness. -/
def imgA8 : edfs_image_t :=
  { sb := { block_size := 64, n_blocks := 16, bitmap_start := 0,
            inode_table_n_inodes := 4, root_inumber := 1 },
    bitmapBytes := fun _ => 0,
    inodeTable := fun _ => uninitInode,
    blockData := fun _ => [] }

/-- Directory inode for the C8 witness. -/
def inoA8 : edfs_disk_inode_t :=
  { type := EDFS_INODE_TYPE_DIRECTORY, size := 64, direct := [8, 0, 0, 0],
    indirect := 0 }

/-- Test image for the C9 witness. -/
def imgA9 : edfs_image_t :=
  { sb := { block_size := 64, n_blocks := 16, bitmap_start := 0,
            inode_table_n_inodes := 4, root_inumber := 2 },
    bitmapBytes := fun _ => 0,
    inodeTable := fun j =>
      if j = 2 then
        { type := EDFS_INODE_TYPE_DIRECTORY, size := 0,
          direct := [0, 0, 0, 0], indirect := 0 }
      else uninitInode,
    blockData := fun _ => [] }

/-- Test image for the C10 witness: root directory with an entry "f" naming
inode 2, a 5-byte regular file stored in block 7. -/
def imgA10 : edfs_image_t :=
  { sb := { block_size := 64, n_blocks := 16, bitmap_start := 0,
            inode_table_n_inodes := 4, root_inumber := 1 },
    bitmapBytes := fun _ => 0,
    inodeTable := fun j =>
      if j = 1 then
        { type := EDFS_INODE_TYPE_DIRECTORY, size := 64,
          direct := [6, 0, 0, 0], indirect := 0 }
      else if j = 2 then
        { type := EDFS_INODE_TYPE_FILE, size := 5,
          direct := [7, 0, 0, 0], indirect := 0 }
      else uninitInode,
    blockData := fun b =>
      if b = 6 then encodeDirEntry 2 [102]
      else if b = 7 then [1, 2, 3, 4, 5] else [] }

/-- The file inode the C10 witness reads ("/f" in imgA10). -/
def inoA10 : edfs_disk_inode_t :=
  { type := EDFS_INODE_TYPE_FILE, size := 5, direct := [7, 0, 0, 0],
    indirect := 0 }

/-- Claim C2: evaluation of file-data write at the failing input.  Writing
one byte at offset 0 of a freshly allocated file (no blocks) returns 0 and
leaves the image untouched: no block is allocated, no bitmap bit is set, no
inode is persisted and no size is extended (the inode record is not even an
output of edfs_write_inode_data). -/
theorem write_inode_data_does_not_allocate :
    edfs_write_inode_data imgA2 inoA2 [7] 1 0 = (0, imgA2) := rfl

/-- Claim C1 counterexample: with block 0 allocated and block 1 a hole,
reading 8 bytes from offset 0 transfers the first 4 bytes and then stops at
the hole, but returns 0 — not 4, the number of bytes transferred before the
hole, as the claim states. -/
theorem read_inode_data_hole_returns_zero :
    (edfs_read_inode_data imgA1 inoA1 (List.replicate 8 0) 8 0).1 ≠ 4 ∧
    (edfs_read_inode_data imgA1 inoA1 (List.replicate 8 0) 8 0).1 = 0 ∧
    (edfs_read_inode_data imgA1 inoA1 (List.replicate 8 0) 8 0).2 =
      [10, 11, 12, 13, 0, 0, 0, 0] := by
  constructor
  · decide
  · constructor
    · decide
    · decide

/-- Claim C3 counterexample: for a bitmap byte whose bit 0 is already set
(byte value 1), mark_used(0) followed by mark_free(0) leaves the byte at 0,
not at its pre-mark_used value 1. -/
theorem bitmap_set_clear_changes_byte :
    (edfs_bitmap_clear (edfs_bitmap_set imgA3 0).2 0).2.bitmapBytes 0 = 0 ∧
    imgA3.bitmapBytes 0 = 1 := by
  constructor
  · decide
  · rfl

set_option maxRecDepth 4000 in
/-- Claim C3 (amended): if bit b of its bitmap byte is clear beforehand,
mark_used(b) followed by mark_free(b) restores the byte exactly; when the
bit was already set the byte comes back with that bit cleared instead. -/
theorem bitmap_set_then_clear_preserves_byte (img : edfs_image_t)
    (block : Nat) (hblk : block < img.sb.n_blocks)
    (hbyte : img.bitmapBytes (block / 8) < 256)
    (hbit : (img.bitmapBytes (block / 8)).testBit (block % 8) = false) :
    (edfs_bitmap_clear (edfs_bitmap_set img block).2 block).2.bitmapBytes
      (block / 8) = img.bitmapBytes (block / 8) := by
  have hkey : ∀ b < 256, ∀ i < 8, b.testBit i = false →
      (b ||| (1 <<< i)) &&& (255 ^^^ (1 <<< i)) = b := by decide
  obtain ⟨⟨bs, nb, bst, cnt, root⟩, bm, it, bd⟩ := img
  simp only at hblk hbyte hbit ⊢
  have h8 : block % 8 < 8 := Nat.mod_lt _ (by omega)
  have hmod : bm (block / 8) % 256 = bm (block / 8) := Nat.mod_eq_of_lt hbyte
  have hlt : bm (block / 8) ||| (1 <<< (block % 8)) < 256 := by
    have h1 : bm (block / 8) < 2 ^ 8 := hbyte
    have h2 : (1 <<< (block % 8)) < 2 ^ 8 := by
      rw [Nat.shiftLeft_eq, one_mul]
      exact Nat.pow_lt_pow_right (by omega) h8
    calc bm (block / 8) ||| (1 <<< (block % 8)) < 2 ^ 8 :=
          Nat.or_lt_two_pow h1 h2
      _ = 256 := by norm_num
  have hnb : ¬ block ≥ nb := by omega
  simp only [edfs_bitmap_set, edfs_bitmap_clear, hnb, if_false,
    eq_self_iff_true, if_true, hmod]
  rw [Nat.mod_eq_of_lt hlt]
  exact hkey _ hbyte _ h8 hbit

/-- Claim C6: for a valid inumber, writing a record and reading it back
returns exactly that record; for an inumber at or past the inode count both
read and write fail with -ENOENT. -/
theorem inode_write_read_roundtrip (img : edfs_image_t) (i : Nat)
    (r : edfs_disk_inode_t) :
    (i < img.sb.inode_table_n_inodes →
      (edfs_write_inode img i r).bind (fun img2 => edfs_read_inode img2 i) =
        Except.ok r) ∧
    (img.sb.inode_table_n_inodes ≤ i →
      edfs_read_inode img i = Except.error (-errNoEnt) ∧
      edfs_write_inode img i r = Except.error (-errNoEnt)) := by
  constructor
  · intro h
    simp only [edfs_write_inode, edfs_read_inode]
    rw [if_neg (by omega)]
    simp only [Except.bind]
    rw [if_neg (by omega)]
    simp
  · intro h
    constructor
    · simp only [edfs_read_inode]
      rw [if_pos (by omega)]
    · simp only [edfs_write_inode]
      rw [if_pos (by omega)]

/-- Claim C6 witness: round trip at inumber 2 of a concrete image, failures
at inumber 9. -/
theorem inode_write_read_roundtrip_witness :
    ((edfs_write_inode imgA6 2 recA6).bind
      (fun img2 => edfs_read_inode img2 2) = Except.ok recA6) ∧
    (edfs_read_inode imgA6 9 = Except.error (-errNoEnt) ∧
     edfs_write_inode imgA6 9 recA6 = Except.error (-errNoEnt)) :=
  ⟨(inode_write_read_roundtrip imgA6 2 recA6).1 (by decide),
   (inode_write_read_roundtrip imgA6 9 recA6).2 (by decide)⟩

/-- If the free-inode scan over inumbers [i, i + remaining) returns 0, no
inumber in that range holds a FREE record (for positive start inumber). -/
theorem edfs_find_free_loop_zero (img : edfs_image_t) :
    ∀ remaining i, 0 < i → edfs_find_free_loop img i remaining = 0 →
      ∀ j, i ≤ j → j < i + remaining →
        (img.inodeTable j).type ≠ EDFS_INODE_TYPE_FREE := by
  intro remaining
  induction remaining with
  | zero => intro i _ _ j h1 h2; omega
  | succ m ih =>
    intro i hi hres j h1 h2
    simp only [edfs_find_free_loop] at hres
    by_cases hfree : (img.inodeTable i).type = EDFS_INODE_TYPE_FREE
    · rw [if_pos hfree] at hres; omega
    · rw [if_neg hfree] at hres
      rcases Nat.eq_or_lt_of_le h1 with h | h
      · exact h ▸ hfree
      · exact ih (i + 1) (by omega) hres j h (by omega)

/-- If the free-inode scan over inumbers [i, i + remaining) returns a
nonzero inumber, it is the least FREE inumber in that range. -/
theorem edfs_find_free_loop_pos (img : edfs_image_t) :
    ∀ remaining i, 0 < i → edfs_find_free_loop img i remaining ≠ 0 →
      i ≤ edfs_find_free_loop img i remaining ∧
      edfs_find_free_loop img i remaining < i + remaining ∧
      (img.inodeTable (edfs_find_free_loop img i remaining)).type =
        EDFS_INODE_TYPE_FREE ∧
      ∀ j, i ≤ j → j < edfs_find_free_loop img i remaining →
        (img.inodeTable j).type ≠ EDFS_INODE_TYPE_FREE := by
  intro remaining
  induction remaining with
  | zero => intro i _ hres; simp [edfs_find_free_loop] at hres
  | succ m ih =>
    intro i hi hres
    simp only [edfs_find_free_loop] at hres ⊢
    by_cases hfree : (img.inodeTable i).type = EDFS_INODE_TYPE_FREE
    · rw [if_pos hfree]
      exact ⟨le_refl i, by omega, hfree, fun j h1 h2 => by omega⟩
    · rw [if_neg hfree] at hres ⊢
      obtain ⟨a, b, c, d⟩ := ih (i + 1) (by omega) hres
      refine ⟨by omega, by omega, c, fun j h1 h2 => ?_⟩
      rcases Nat.eq_or_lt_of_le h1 with h | h
      · exact h ▸ hfree
      · exact d j h h2

/-- Claim C7: the free-inode scan starts at inumber 1 and returns the
smallest inumber with a FREE record, or 0 when none exists below the table
bound; edfs_new_inode fails -ENOSPC exactly when the scan returns 0 and
otherwise produces the zeroed record with that inumber and the given
type. -/
theorem find_free_inode_spec (img : edfs_image_t) (t : Nat) :
    (edfs_find_free_inode img = 0 →
      ∀ j, 1 ≤ j → j < img.sb.inode_table_n_inodes →
        (img.inodeTable j).type ≠ EDFS_INODE_TYPE_FREE) ∧
    (edfs_find_free_inode img ≠ 0 →
      1 ≤ edfs_find_free_inode img ∧
      edfs_find_free_inode img < img.sb.inode_table_n_inodes ∧
      (img.inodeTable (edfs_find_free_inode img)).type =
        EDFS_INODE_TYPE_FREE ∧
      ∀ j, 1 ≤ j → j < edfs_find_free_inode img →
        (img.inodeTable j).type ≠ EDFS_INODE_TYPE_FREE) ∧
    (edfs_find_free_inode img = 0 →
      edfs_new_inode img t = Except.error (-errNoSpc)) ∧
    (edfs_find_free_inode img ≠ 0 →
      edfs_new_inode img t = Except.ok (edfs_find_free_inode img,
        { type := t, size := 0,
          direct := List.replicate EDFS_INODE_N_DIRECT_BLOCKS 0,
          indirect := 0 })) := by
  refine ⟨?_, ?_, ?_, ?_⟩
  · intro hres j h1 h2
    exact edfs_find_free_loop_zero img (img.sb.inode_table_n_inodes - 1) 1
      (by omega) hres j h1 (by omega)
  · intro hres
    simp only [edfs_find_free_inode] at hres ⊢
    obtain ⟨a, b, c, d⟩ := edfs_find_free_loop_pos img
      (img.sb.inode_table_n_inodes - 1) 1 (by omega) hres
    have hcnt : 0 < img.sb.inode_table_n_inodes := by
      by_contra h
      have h0 : img.sb.inode_table_n_inodes - 1 = 0 := by omega
      rw [h0] at hres
      simp [edfs_find_free_loop] at hres
    exact ⟨a, by omega, c, d⟩
  · intro hres
    simp [edfs_new_inode, hres]
  · intro hres
    simp [edfs_new_inode, hres]

/-- Claim C7 witness: in a concrete image whose inode 1 is in use and whose
inode 2 is free, the scan returns a free inumber bounded by the table, and
allocation yields the zeroed record with that inumber and type FILE. -/
theorem find_free_inode_spec_witness :
    (1 ≤ edfs_find_free_inode imgA7 ∧
     edfs_find_free_inode imgA7 < imgA7.sb.inode_table_n_inodes ∧
     (imgA7.inodeTable (edfs_find_free_inode imgA7)).type =
       EDFS_INODE_TYPE_FREE ∧
     ∀ j, 1 ≤ j → j < edfs_find_free_inode imgA7 →
       (imgA7.inodeTable j).type ≠ EDFS_INODE_TYPE_FREE) ∧
    edfs_new_inode imgA7 EDFS_INODE_TYPE_FILE =
      Except.ok (edfs_find_free_inode imgA7,
        { type := EDFS_INODE_TYPE_FILE, size := 0,
          direct := List.replicate EDFS_INODE_N_DIRECT_BLOCKS 0,
          indirect := 0 }) :=
  ⟨(find_free_inode_spec imgA7 EDFS_INODE_TYPE_FILE).2.1 (by decide),
   (find_free_inode_spec imgA7 EDFS_INODE_TYPE_FILE).2.2.2 (by decide)⟩

/-- A name accepted by edfs_check_filename is 1 to 59 bytes long and free
of NUL bytes (every accepted character is at least 32). -/
theorem check_filename_ok_facts (name : List Nat)
    (h : edfs_check_filename name = 0) :
    0 < name.length ∧ name.length ≤ 59 ∧ ∀ c ∈ name, c ≠ 0 := by
  simp only [edfs_check_filename] at h
  by_cases h0 : name.length = 0
  · rw [if_pos h0] at h; simp [errInval] at h
  · rw [if_neg h0] at h
    by_cases h1 : name.length > 59
    · rw [if_pos h1] at h; simp [errNameTooLong] at h
    · rw [if_neg h1] at h
      by_cases h2 : name.all (fun c =>
          (65 ≤ c && c ≤ 90) || (97 ≤ c && c ≤ 122) ||
          (48 ≤ c && c ≤ 57) || c == 32 || c == 46) = true
      · refine ⟨by omega, by omega, fun c hc => ?_⟩
        rw [List.all_eq_true] at h2
        have := h2 c hc
        simp only [Bool.or_eq_true, decide_eq_true_eq, beq_iff_eq,
          Bool.and_eq_true] at this
        omega
      · rw [if_neg h2] at h; simp [errInval] at h

/-- Claim C8: an empty name, a name longer than 59 bytes, or a name with a
character outside the alphanumeric/space/period set makes the directory
insert fail with a negative error code and leaves every byte of the image
(bitmap, inode table, data blocks) unchanged. -/
theorem bad_filename_rejected_before_mutation (img : edfs_image_t)
    (inode : edfs_disk_inode_t) (name : List Nat) (k : Nat)
    (hbad : name.length = 0 ∨ 59 < name.length ∨ ∃ c ∈ name,
      ((65 ≤ c && c ≤ 90) || (97 ≤ c && c ≤ 122) ||
       (48 ≤ c && c ≤ 57) || c == 32 || c == 46) = false) :
    (edfs_add_dir_entry img inode name k).1 < 0 ∧
    (edfs_add_dir_entry img inode name k).2 = img := by
  have hchk : edfs_check_filename name < 0 := by
    simp only [edfs_check_filename]
    rcases hbad with h | h | ⟨c, hc, hcf⟩
    · rw [if_pos h]; simp [errInval]
    · rw [if_neg (by omega), if_pos h]; simp [errNameTooLong]
    · by_cases h0 : name.length = 0
      · rw [if_pos h0]; simp [errInval]
      · rw [if_neg h0]
        by_cases h1 : name.length > 59
        · rw [if_pos h1]; simp [errNameTooLong]
        · rw [if_neg h1]
          have hall : name.all (fun c =>
              (65 ≤ c && c ≤ 90) || (97 ≤ c && c ≤ 122) ||
              (48 ≤ c && c ≤ 57) || c == 32 || c == 46) ≠ true := by
            intro hcon
            rw [List.all_eq_true] at hcon
            rw [hcon c hc] at hcf
            exact Bool.noConfusion hcf
          rw [if_neg hall]; simp [errInval]
  have hne : edfs_check_filename name ≠ 0 := by omega
  simp only [edfs_add_dir_entry, if_pos hne]
  exact ⟨hchk, trivial⟩

/-- Claim C8 witness: inserting the name "/" (byte 47, a forbidden
character) fails and leaves the concrete image unchanged. -/
theorem bad_filename_rejected_before_mutation_witness :
    (edfs_add_dir_entry imgA8 inoA8 [47] 9).1 < 0 ∧
    (edfs_add_dir_entry imgA8 inoA8 [47] 9).2 = imgA8 :=
  bad_filename_rejected_before_mutation imgA8 inoA8 [47] 9
    (Or.inr (Or.inr ⟨47, by decide, by decide⟩))

/-- Dropping separator bytes from a run of separators leaves nothing. -/
theorem dropWhile_slash_replicate :
    ∀ m : Nat, (List.replicate m (47 : Nat)).dropWhile (fun c => c == 47) = [] := by
  intro m
  induction m with
  | zero => rfl
  | succ n ih => simp [List.replicate_succ, List.dropWhile_cons, ih]

/-- Claim C9: for any image whose superblock names an in-range root inode,
resolving a path consisting of one or more separators yields the root inode
recorded in the superblock, whatever the directory contents are. -/
theorem resolve_root_slashes (img : edfs_image_t) (k : Nat) (hk : 1 ≤ k)
    (hroot : img.sb.root_inumber < img.sb.inode_table_n_inodes) :
    edfs_find_inode img (List.replicate k 47) =
      some (img.sb.root_inumber, img.inodeTable img.sb.root_inumber) := by
  obtain ⟨m, rfl⟩ : ∃ m, k = m + 1 := ⟨k - 1, by omega⟩
  simp only [edfs_find_inode, List.length_replicate]
  rw [if_neg (by omega)]
  rw [if_neg (by simp [List.replicate_succ])]
  have hsplit : (List.replicate (m + 1) (47 : Nat)).dropWhile
      (fun c => c != 47) = 47 :: List.replicate m 47 := by
    simp [List.replicate_succ, List.dropWhile_cons]
  simp only [edfs_walk, hsplit, dropWhile_slash_replicate, List.takeWhile_nil,
    List.drop_nil, if_pos rfl]
  simp [edfs_descend, hroot]

/-- Claim C9 witness: "///" resolves to the root inode (inumber 2) of a
concrete image. -/
theorem resolve_root_slashes_witness :
    edfs_find_inode imgA9 (List.replicate 3 47) =
      some (imgA9.sb.root_inumber, imgA9.inodeTable imgA9.sb.root_inumber) :=
  resolve_root_slashes imgA9 3 (by decide) (by decide)

/-- Claim C10: reading a regular file at an offset at or past its size
fails with -EINVAL (end-of-file included); below the size, the requested
length is clamped to size - offset and handed to edfs_read_inode_data. -/
theorem edfuse_read_eof_and_clamp (img : edfs_image_t) (path : List Nat)
    (buf : List Nat) (size offset inum : Nat) (ino : edfs_disk_inode_t)
    (hfind : edfs_find_inode img path = some (inum, ino))
    (hfile : ino.type = EDFS_INODE_TYPE_FILE) :
    (ino.size ≤ offset →
      edfuse_read img path buf size offset = (-errInval, buf)) ∧
    (offset < ino.size →
      edfuse_read img path buf size offset =
        edfs_read_inode_data img ino buf (min (ino.size - offset) size)
          offset) := by
  constructor
  · intro h
    simp only [edfuse_read, hfind]
    rw [if_pos h]
  · intro h
    simp only [edfuse_read, hfind]
    rw [if_neg (by omega)]
    rw [if_neg (by rw [hfile]; decide)]
    rw [if_neg (by simp [hfile])]
    rw [show (if ino.size - offset < size then ino.size - offset else size) =
      min (ino.size - offset) size from by split <;> omega]

/-- Claim C10 witness: in a concrete image, reading "/f" (a 5-byte file) at
offset 5 is -EINVAL and reading at offset 2 delegates with the clamped
length min 3 10. -/
theorem edfuse_read_eof_and_clamp_witness :
    edfuse_read imgA10 [47, 102] (List.replicate 10 0) 10 5 =
      (-errInval, List.replicate 10 0) ∧
    edfuse_read imgA10 [47, 102] (List.replicate 10 0) 10 2 =
      edfs_read_inode_data imgA10 inoA10 (List.replicate 10 0) (min 3 10) 2 :=
  ⟨(edfuse_read_eof_and_clamp imgA10 [47, 102] (List.replicate 10 0) 10 5 2
      inoA10 (by decide) rfl).1 (by decide),
   (edfuse_read_eof_and_clamp imgA10 [47, 102] (List.replicate 10 0) 10 2 2
      inoA10 (by decide) rfl).2 (by decide)⟩

/-- Claim C3 witness: round trip at block 3 of a concrete image whose
bitmap is all zeroes (bit 3 clear). -/
theorem bitmap_set_then_clear_preserves_byte_witness :
    (edfs_bitmap_clear (edfs_bitmap_set imgW3 3).2 3).2.bitmapBytes (3 / 8) =
      imgW3.bitmapBytes (3 / 8) :=
  bitmap_set_then_clear_preserves_byte imgW3 3 (by decide) (by decide)
    (by decide)

/-- padTo always produces exactly n bytes. -/
theorem length_padTo (n : Nat) (l : List Nat) : (padTo n l).length = n := by
  simp only [padTo, List.length_take, List.length_append, List.length_replicate]
  omega

/-- splice preserves the buffer length when the source fits. -/
theorem length_splice (dst src : List Nat) (i : Nat)
    (h : i + src.length ≤ dst.length) :
    (splice dst i src).length = dst.length := by
  simp only [splice, List.length_append, List.length_take, List.length_drop]
  omega

/-- Bytes before the spliced range are unchanged. -/
theorem splice_getD_left (dst src : List Nat) (i j : Nat) (hj : j < i)
    (hi : i ≤ dst.length) :
    (splice dst i src).getD j 0 = dst.getD j 0 := by
  have hlen1 : (dst.take i).length = i := by
    simp only [List.length_take]; omega
  have hlen : (dst.take i ++ src).length = i + src.length := by
    simp only [List.length_append, List.length_take]; omega
  simp only [splice, List.getD_eq_getElem?_getD]
  rw [List.getElem?_append, hlen, if_pos (by omega), List.getElem?_append,
    hlen1, if_pos (by omega), List.getElem?_take, if_pos hj]

/-- Bytes inside the spliced range come from the source. -/
theorem splice_getD_mid (dst src : List Nat) (i j : Nat) (h1 : i ≤ j)
    (h2 : j < i + src.length) (hi : i ≤ dst.length) :
    (splice dst i src).getD j 0 = src.getD (j - i) 0 := by
  have hlen1 : (dst.take i).length = i := by
    simp only [List.length_take]; omega
  have hlen : (dst.take i ++ src).length = i + src.length := by
    simp only [List.length_append, List.length_take]; omega
  simp only [splice, List.getD_eq_getElem?_getD]
  rw [List.getElem?_append, hlen, if_pos (by omega), List.getElem?_append,
    hlen1, if_neg (by omega)]

/-- Bytes after the spliced range are unchanged. -/
theorem splice_getD_right (dst src : List Nat) (i j : Nat)
    (h1 : i + src.length ≤ j) (hi : i ≤ dst.length) :
    (splice dst i src).getD j 0 = dst.getD j 0 := by
  have hlen : (dst.take i ++ src).length = i + src.length := by
    simp only [List.length_append, List.length_take]; omega
  simp only [splice, List.getD_eq_getElem?_getD]
  rw [List.getElem?_append, hlen, if_neg (by omega), List.getElem?_drop]
  congr 2
  omega

/-- A successful block read yields exactly one block of bytes. -/
theorem read_blk_ok_length (img : edfs_image_t) (ino : edfs_disk_inode_t)
    (id : Nat) (bs : List Nat)
    (h : edfs_read_inode_data_blk img ino id = BlkRead.ok bs) :
    bs.length = img.sb.block_size := by
  simp only [edfs_read_inode_data_blk] at h
  split at h
  · exact absurd h (by simp)
  · split at h
    · exact absurd h (by simp)
    · have hpad := (BlkRead.ok.injEq _ _).mp h
      rw [← hpad]
      exact length_padTo _ _

/-- Invariant of the read loop on the all-blocks-allocated path: starting
at position pos with n bytes left (pos + n = off + size), if every block
covering the rest of the range reads successfully, the loop returns size,
keeps the buffer length, leaves bytes before pos - off as they are in buf,
and fills every byte from pos - off on with the file's byte at off + j. -/
theorem edfs_read_loop_ok (img : edfs_image_t) (ino : edfs_disk_inode_t)
    (size off : Nat) (hB : 0 < img.sb.block_size) :
    ∀ fuel n pos buf, n ≤ fuel → off ≤ pos → pos + n = off + size →
      buf.length = size →
      (∀ id, pos / img.sb.block_size ≤ id →
        img.sb.block_size * id < off + size →
        ∃ bs, edfs_read_inode_data_blk img ino id = BlkRead.ok bs) →
      (edfs_read_loop img ino size off fuel n pos buf).1 = (size : Int) ∧
      (edfs_read_loop img ino size off fuel n pos buf).2.length = size ∧
      (∀ j, j < pos - off →
        (edfs_read_loop img ino size off fuel n pos buf).2.getD j 0 =
          buf.getD j 0) ∧
      (∀ j, pos - off ≤ j → j < size →
        (edfs_read_loop img ino size off fuel n pos buf).2.getD j 0 =
          edfs_file_byte img ino (off + j)) := by
  intro fuel
  induction fuel with
  | zero =>
    intro n pos buf hnf hop hpn hbl _hok
    have hn : n = 0 := by omega
    subst hn
    exact ⟨rfl, hbl, fun j hj => rfl, fun j hj1 hj2 => by omega⟩
  | succ fuel ih =>
    intro n pos buf hnf hop hpn hbl hok
    by_cases hn : n = 0
    · subst hn
      exact ⟨rfl, hbl, fun j hj => rfl, fun j hj1 hj2 => by omega⟩
    · have hmodlt : pos % img.sb.block_size < img.sb.block_size :=
        Nat.mod_lt _ hB
      have hdm := Nat.div_add_mod pos img.sb.block_size
      obtain ⟨bb, hbb⟩ := hok (pos / img.sb.block_size) (le_refl _)
        (by
          have h1 : img.sb.block_size * (pos / img.sb.block_size) ≤ pos := by
            omega
          omega)
      have hbblen : bb.length = img.sb.block_size :=
        read_blk_ok_length img ino _ bb hbb
      have hbs0pos : 0 < min n (img.sb.block_size - pos % img.sb.block_size) := by
        omega
      have hbs0n : min n (img.sb.block_size - pos % img.sb.block_size) ≤ n := by
        omega
      have hsrclen : ((bb.drop (pos % img.sb.block_size)).take
          (min n (img.sb.block_size - pos % img.sb.block_size))).length =
          min n (img.sb.block_size - pos % img.sb.block_size) := by
        simp only [List.length_take, List.length_drop, hbblen]
        omega
      have hfit : (pos - off) +
          min n (img.sb.block_size - pos % img.sb.block_size) ≤ size := by
        omega
      have hbl2 : (splice buf (pos - off)
          ((bb.drop (pos % img.sb.block_size)).take
            (min n (img.sb.block_size - pos % img.sb.block_size)))).length =
          size := by
        rw [length_splice]
        · exact hbl
        · rw [hsrclen, hbl]; omega
      have hdivmono : pos / img.sb.block_size ≤
          (pos + min n (img.sb.block_size - pos % img.sb.block_size)) /
            img.sb.block_size :=
        Nat.div_le_div_right (by omega)
      obtain ⟨r1, r2, r3, r4⟩ := ih
        (n - min n (img.sb.block_size - pos % img.sb.block_size))
        (pos + min n (img.sb.block_size - pos % img.sb.block_size))
        (splice buf (pos - off)
          ((bb.drop (pos % img.sb.block_size)).take
            (min n (img.sb.block_size - pos % img.sb.block_size))))
        (by omega) (by omega) (by omega) hbl2
        (fun id hid hlt => hok id (le_trans hdivmono hid) hlt)
      have hunfold : edfs_read_loop img ino size off (fuel + 1) n pos buf =
          edfs_read_loop img ino size off fuel
            (n - min n (img.sb.block_size - pos % img.sb.block_size))
            (pos + min n (img.sb.block_size - pos % img.sb.block_size))
            (splice buf (pos - off)
              ((bb.drop (pos % img.sb.block_size)).take
                (min n (img.sb.block_size - pos % img.sb.block_size)))) := by
        simp only [edfs_read_loop, if_neg hn, hbb]
      rw [hunfold]
      refine ⟨r1, r2, fun j hj => ?_, fun j hj1 hj2 => ?_⟩
      · rw [r3 j (by omega)]
        exact splice_getD_left buf _ (pos - off) j hj (by omega)
      · by_cases hcase : j <
          pos - off + min n (img.sb.block_size - pos % img.sb.block_size)
        · rw [r3 j (by omega)]
          rw [splice_getD_mid buf _ (pos - off) j hj1 (by omega) (by omega)]
          have hd : j - (pos - off) <
              min n (img.sb.block_size - pos % img.sb.block_size) := by omega
          rw [List.getD_eq_getElem?_getD, List.getElem?_take, if_pos hd,
            List.getElem?_drop, ← List.getD_eq_getElem?_getD]
          have hoffj : off + j = pos + (j - (pos - off)) := by omega
          have hrd : pos % img.sb.block_size + (j - (pos - off)) <
              img.sb.block_size := by omega
          have hdiv : (off + j) / img.sb.block_size =
              pos / img.sb.block_size := by
            rw [hoffj, show pos + (j - (pos - off)) =
              img.sb.block_size * (pos / img.sb.block_size) +
                (pos % img.sb.block_size + (j - (pos - off))) from by omega,
              Nat.mul_add_div hB, Nat.div_eq_of_lt hrd, Nat.add_zero]
          have hmod : (off + j) % img.sb.block_size =
              pos % img.sb.block_size + (j - (pos - off)) := by
            rw [hoffj, show pos + (j - (pos - off)) =
              img.sb.block_size * (pos / img.sb.block_size) +
                (pos % img.sb.block_size + (j - (pos - off))) from by omega,
              Nat.mul_add_mod, Nat.mod_eq_of_lt hrd]
          rw [edfs_file_byte, hdiv, hbb, hmod]
        · exact r4 j (by omega) hj2

/-- Invariant of the read loop on the hole path: if block m is a hole, lies
in the remaining range, and every block before it reads successfully, the
loop stops at m and returns 0. -/
theorem edfs_read_loop_hole (img : edfs_image_t) (ino : edfs_disk_inode_t)
    (size off m : Nat) (hB : 0 < img.sb.block_size)
    (hhole : edfs_read_inode_data_blk img ino m = BlkRead.hole) :
    ∀ fuel n pos buf, n ≤ fuel → pos + n = off + size →
      img.sb.block_size * m < off + size →
      (pos ≤ img.sb.block_size * m ∨
        (pos / img.sb.block_size = m ∧ 0 < n)) →
      (∀ id, pos / img.sb.block_size ≤ id → id < m →
        ∃ bs, edfs_read_inode_data_blk img ino id = BlkRead.ok bs) →
      (edfs_read_loop img ino size off fuel n pos buf).1 = 0 := by
  intro fuel
  induction fuel with
  | zero =>
    intro n pos buf hnf hpn hcov hinv _hok
    have hn : n = 0 := by omega
    rcases hinv with h | ⟨_, h⟩
    · omega
    · omega
  | succ fuel ih =>
    intro n pos buf hnf hpn hcov hinv hok
    by_cases hn : n = 0
    · rcases hinv with h | ⟨_, h⟩
      · omega
      · omega
    · by_cases hpm : pos / img.sb.block_size = m
      · have hunfold : (edfs_read_loop img ino size off (fuel + 1) n pos
            buf).1 = 0 := by
          simp only [edfs_read_loop, if_neg hn, hpm, hhole]
        exact hunfold
      · have hposle : pos ≤ img.sb.block_size * m := by
          rcases hinv with h | ⟨h, _⟩
          · exact h
          · exact absurd h hpm
        have hdivle : pos / img.sb.block_size ≤ m := by
          calc pos / img.sb.block_size ≤
              img.sb.block_size * m / img.sb.block_size :=
                Nat.div_le_div_right hposle
            _ = m := by rw [Nat.mul_div_cancel_left m hB]
        have hdivlt : pos / img.sb.block_size < m := by omega
        have hmodlt : pos % img.sb.block_size < img.sb.block_size :=
          Nat.mod_lt _ hB
        have hdm := Nat.div_add_mod pos img.sb.block_size
        obtain ⟨bb, hbb⟩ := hok (pos / img.sb.block_size) (le_refl _) hdivlt
        have hstep : pos + min n (img.sb.block_size - pos % img.sb.block_size)
            ≤ img.sb.block_size * m := by
          have h1 : pos + min n (img.sb.block_size - pos % img.sb.block_size)
              ≤ img.sb.block_size * (pos / img.sb.block_size + 1) := by
            have hms : img.sb.block_size * (pos / img.sb.block_size + 1) =
                img.sb.block_size * (pos / img.sb.block_size) +
                  img.sb.block_size := by ring
            omega
          have h2 : img.sb.block_size * (pos / img.sb.block_size + 1) ≤
              img.sb.block_size * m :=
            Nat.mul_le_mul_left _ (by omega)
          omega
        have hunfold : edfs_read_loop img ino size off (fuel + 1) n pos buf =
            edfs_read_loop img ino size off fuel
              (n - min n (img.sb.block_size - pos % img.sb.block_size))
              (pos + min n (img.sb.block_size - pos % img.sb.block_size))
              (splice buf (pos - off)
                ((bb.drop (pos % img.sb.block_size)).take
                  (min n (img.sb.block_size - pos % img.sb.block_size)))) := by
          simp only [edfs_read_loop, if_neg hn, hbb]
        rw [hunfold]
        refine ih _ _ _ (by omega) (by omega) hcov (Or.inl hstep)
          (fun id hid hlt => hok id ?_ hlt)
        calc pos / img.sb.block_size ≤
            (pos + min n (img.sb.block_size - pos % img.sb.block_size)) /
              img.sb.block_size := Nat.div_le_div_right (by omega)
          _ ≤ id := hid

/-- Claim C1 (amended): file-data read decomposes [off, off + size) into
block-aligned sub-ranges.  When every covered block reads successfully it
returns size and the destination holds exactly the file's bytes for the
range.  When it encounters the first hole (every earlier covered block
reads successfully, block m is a hole) it stops there, but the value
returned is 0 — the hole marker — not the number of bytes transferred
before the hole. -/
theorem read_inode_data_spec (img : edfs_image_t) (ino : edfs_disk_inode_t)
    (size off : Nat) (buf : List Nat) (hB : 0 < img.sb.block_size)
    (hbuf : buf.length = size) :
    ((∀ id, off / img.sb.block_size ≤ id →
        img.sb.block_size * id < off + size →
        ∃ bs, edfs_read_inode_data_blk img ino id = BlkRead.ok bs) →
      (edfs_read_inode_data img ino buf size off).1 = (size : Int) ∧
      (edfs_read_inode_data img ino buf size off).2.length = size ∧
      (∀ j, j < size →
        (edfs_read_inode_data img ino buf size off).2.getD j 0 =
          edfs_file_byte img ino (off + j))) ∧
    (∀ m, edfs_read_inode_data_blk img ino m = BlkRead.hole →
      off / img.sb.block_size ≤ m → img.sb.block_size * m < off + size →
      (∀ id, off / img.sb.block_size ≤ id → id < m →
        ∃ bs, edfs_read_inode_data_blk img ino id = BlkRead.ok bs) →
      (edfs_read_inode_data img ino buf size off).1 = 0) := by
  constructor
  · intro hok
    obtain ⟨r1, r2, _r3, r4⟩ := edfs_read_loop_ok img ino size off hB
      size size off buf (le_refl _) (le_refl _) rfl hbuf hok
    exact ⟨r1, r2, fun j hj => r4 j (by omega) hj⟩
  · intro m hhole hm hcov hok
    by_cases hsz : size = 0
    · subst hsz
      simp [edfs_read_inode_data, edfs_read_loop]
    · have hinv : off ≤ img.sb.block_size * m ∨
          (off / img.sb.block_size = m ∧ 0 < size) := by
        by_cases hdm : off / img.sb.block_size = m
        · exact Or.inr ⟨hdm, by omega⟩
        · have hlt : off / img.sb.block_size < m := by omega
          have h1 : off < img.sb.block_size * (off / img.sb.block_size + 1) := by
            have := Nat.div_add_mod off img.sb.block_size
            have := Nat.mod_lt off hB
            have hms : img.sb.block_size * (off / img.sb.block_size + 1) =
                img.sb.block_size * (off / img.sb.block_size) +
                  img.sb.block_size := by ring
            omega
          have h2 : img.sb.block_size * (off / img.sb.block_size + 1) ≤
              img.sb.block_size * m := Nat.mul_le_mul_left _ (by omega)
          exact Or.inl (by omega)
      exact edfs_read_loop_hole img ino size off m hB hhole size size off buf
        (le_refl _) rfl hcov hinv hok

/-- Claim C1 witness: reading 6 bytes at offset 2 of a file whose two
covered blocks are allocated returns 6, and byte 3 of the result is the
file's byte at position 5. -/
theorem read_inode_data_spec_witness :
    (edfs_read_inode_data imgW1 inoW1 (List.replicate 6 0) 6 2).1 = (6 : Int) ∧
    (edfs_read_inode_data imgW1 inoW1 (List.replicate 6 0) 6 2).2.getD 3 0 =
      edfs_file_byte imgW1 inoW1 5 := by
  have hok : ∀ id, 2 / imgW1.sb.block_size ≤ id →
      imgW1.sb.block_size * id < 2 + 6 →
      ∃ bs, edfs_read_inode_data_blk imgW1 inoW1 id = BlkRead.ok bs := by
    intro id _h1 h2
    have hb4 : imgW1.sb.block_size = 4 := rfl
    rw [hb4] at h2
    have hid : id < 2 := by omega
    interval_cases id
    · exact ⟨[10, 11, 12, 13], by decide⟩
    · exact ⟨[20, 21, 22, 23], by decide⟩
  obtain ⟨r1, _r2, r3⟩ := (read_inode_data_spec imgW1 inoW1 6 2
    (List.replicate 6 0) (by decide) (by decide)).1 hok
  exact ⟨r1, r3 3 (by omega)⟩

/-- Block-level reads depend only on the superblock, the data region and
the inode's block slots — never on the inode's type tag. -/
theorem read_blk_shape_congr (img1 img2 : edfs_image_t)
    (ino1 ino2 : edfs_disk_inode_t) (hsb : img1.sb = img2.sb)
    (hbd : img1.blockData = img2.blockData) (hdir : ino1.direct = ino2.direct)
    (hind : ino1.indirect = ino2.indirect) (id : Nat) :
    edfs_read_inode_data_blk img1 ino1 id =
      edfs_read_inode_data_blk img2 ino2 id := by
  simp only [edfs_read_inode_data_blk, edfs_resolve_blk, hsb, hbd, hdir, hind]

/-- The read loop depends only on the superblock, data region and inode
block slots. -/
theorem read_loop_shape_congr (img1 img2 : edfs_image_t)
    (ino1 ino2 : edfs_disk_inode_t) (hsb : img1.sb = img2.sb)
    (hbd : img1.blockData = img2.blockData) (hdir : ino1.direct = ino2.direct)
    (hind : ino1.indirect = ino2.indirect) :
    ∀ fuel size off n pos buf,
      edfs_read_loop img1 ino1 size off fuel n pos buf =
        edfs_read_loop img2 ino2 size off fuel n pos buf := by
  intro fuel
  induction fuel with
  | zero => intro size off n pos buf; rfl
  | succ fuel ih =>
    intro size off n pos buf
    simp only [edfs_read_loop]
    by_cases hn : n = 0
    · simp [hn]
    · rw [if_neg hn, if_neg hn, hsb,
        read_blk_shape_congr img1 img2 ino1 ino2 hsb hbd hdir hind]
      cases h : edfs_read_inode_data_blk img2 ino2
          (pos / img2.sb.block_size) with
      | err e => rfl
      | hole => rfl
      | ok bb => exact ih size off _ _ _

/-- File-data reads depend only on the superblock, data region and inode
block slots. -/
theorem read_inode_data_shape_congr (img1 img2 : edfs_image_t)
    (ino1 ino2 : edfs_disk_inode_t) (hsb : img1.sb = img2.sb)
    (hbd : img1.blockData = img2.blockData) (hdir : ino1.direct = ino2.direct)
    (hind : ino1.indirect = ino2.indirect) (buf : List Nat) (size off : Nat) :
    edfs_read_inode_data img1 ino1 buf size off =
      edfs_read_inode_data img2 ino2 buf size off :=
  read_loop_shape_congr img1 img2 ino1 ino2 hsb hbd hdir hind size size off
    size off buf

/-- The directory-entry scan of the path resolver depends only on the
superblock, data region and inode block slots. -/
theorem lookup_scan_shape_congr (img1 img2 : edfs_image_t)
    (ino1 ino2 : edfs_disk_inode_t) (hsb : img1.sb = img2.sb)
    (hbd : img1.blockData = img2.blockData) (hdir : ino1.direct = ino2.direct)
    (hind : ino1.indirect = ino2.indirect) (name : List Nat) :
    ∀ remaining i,
      edfs_lookup_scan img1 ino1 name i remaining =
        edfs_lookup_scan img2 ino2 name i remaining := by
  intro remaining
  induction remaining with
  | zero => intro i; rfl
  | succ rem ih =>
    intro i
    simp only [edfs_lookup_scan, edfs_dir_slot_read,
      read_inode_data_shape_congr img1 img2 ino1 ino2 hsb hbd hdir hind]
    rw [ih (i + 1)]

/-- The descent step preserves the inumber and keeps the records
shape-equal when one image is the other with one inode retyped. -/
theorem descend_retype_shape (img : edfs_image_t) (i t inum : Nat)
    (cur1 cur2 : Nat × edfs_disk_inode_t) (h2 : sameShape cur1.2 cur2.2) :
    (edfs_descend (retypeInode img i t) cur1 inum).1 =
      (edfs_descend img cur2 inum).1 ∧
    sameShape (edfs_descend (retypeInode img i t) cur1 inum).2
      (edfs_descend img cur2 inum).2 := by
  refine ⟨rfl, ?_⟩
  simp only [edfs_descend, retypeInode]
  by_cases hin : inum < img.sb.inode_table_n_inodes
  · rw [if_pos hin, if_pos hin]
    by_cases hi : inum = i
    · rw [if_pos hi]
      exact ⟨rfl, rfl, rfl⟩
    · rw [if_neg hi]
      exact ⟨rfl, rfl, rfl⟩
  · rw [if_neg hin, if_neg hin]
    exact h2

/-- The path walk yields the same inumber whether or not one inode of the
image has been retyped: the walk never inspects inode types. -/
theorem walk_retype_map_fst (img : edfs_image_t) (i t : Nat) :
    ∀ fuel (p : List Nat) (cur1 cur2 : Nat × edfs_disk_inode_t),
      cur1.1 = cur2.1 → sameShape cur1.2 cur2.2 →
      (edfs_walk (retypeInode img i t) fuel cur1 p).map Prod.fst =
        (edfs_walk img fuel cur2 p).map Prod.fst := by
  intro fuel
  induction fuel with
  | zero => intro p cur1 cur2 h1 _h2; rfl
  | succ fuel ih =>
    intro p cur1 cur2 h1 h2
    obtain ⟨_hsz, hdir, hind⟩ := h2
    simp only [edfs_walk]
    cases hsplit : p.dropWhile (fun c => c != 47) with
    | nil => simp [h1]
    | cons hd rest =>
      dsimp only
      by_cases hcomp :
          (rest.dropWhile (fun c => c == 47)).takeWhile (fun c => c != 47) = []
      · rw [if_pos hcomp, if_pos hcomp]
        simp [h1]
      · rw [if_neg hcomp, if_neg hcomp]
        by_cases hlen : EDFS_FILENAME_SIZE ≤
            ((rest.dropWhile (fun c => c == 47)).takeWhile
              (fun c => c != 47)).length
        · rw [if_pos hlen, if_pos hlen]
        · rw [if_neg hlen, if_neg hlen]
          have hne : edfs_n_dir_entries (retypeInode img i t) =
              edfs_n_dir_entries img := rfl
          rw [hne, lookup_scan_shape_congr (retypeInode img i t) img cur1.2
            cur2.2 rfl rfl hdir hind _ (edfs_n_dir_entries img) 0]
          cases hlk : edfs_lookup_scan img cur2.2
              ((rest.dropWhile (fun c => c == 47)).takeWhile
                (fun c => c != 47)) 0 (edfs_n_dir_entries img) with
          | none => rfl
          | some inum =>
            obtain ⟨d1, d2⟩ := descend_retype_shape img i t inum cur1 cur2
              ⟨_hsz, hdir, hind⟩
            exact ih _ _ _ d1 d2

/-- Claim C5 (amended): path resolution never inspects inode types — the
resolved inumber is unchanged when any inode of the image is retyped, so
the walk descends through whatever inode a matching entry names, directory
or not; and a walk step whose component has no matching directory entry
fails (returns none, the C code's false). -/
theorem find_inode_ignores_inode_type (img : edfs_image_t) (path : List Nat)
    (i t : Nat) :
    ((edfs_find_inode (retypeInode img i t) path).map Prod.fst =
      (edfs_find_inode img path).map Prod.fst) ∧
    (∀ fuel (cur : Nat × edfs_disk_inode_t) (p : List Nat) (hd : Nat)
        (rest : List Nat),
      p.dropWhile (fun c => c != 47) = hd :: rest →
      (rest.dropWhile (fun c => c == 47)).takeWhile (fun c => c != 47) ≠ [] →
      ((rest.dropWhile (fun c => c == 47)).takeWhile
        (fun c => c != 47)).length < EDFS_FILENAME_SIZE →
      edfs_lookup_scan img cur.2
        ((rest.dropWhile (fun c => c == 47)).takeWhile (fun c => c != 47)) 0
        (edfs_n_dir_entries img) = none →
      edfs_walk img (fuel + 1) cur p = none) := by
  constructor
  · simp only [edfs_find_inode]
    by_cases h0 : path.length = 0
    · rw [if_pos h0, if_pos h0]
    · rw [if_neg h0, if_neg h0]
      by_cases h1 : path.headD 0 ≠ 47
      · rw [if_pos h1, if_pos h1]
      · rw [if_neg h1, if_neg h1]
        have hroot : (retypeInode img i t).sb.root_inumber =
            img.sb.root_inumber := rfl
        rw [hroot]
        obtain ⟨d1, d2⟩ := descend_retype_shape img i t
          img.sb.root_inumber (img.sb.root_inumber, uninitInode)
          (img.sb.root_inumber, uninitInode) ⟨rfl, rfl, rfl⟩
        exact walk_retype_map_fst img i t (path.length + 1) path _ _ d1 d2
  · intro fuel cur p hd rest hsplit hcomp hlen hlk
    simp only [edfs_walk, hsplit]
    rw [if_neg hcomp, if_neg (by omega), hlk]

/-- Claim C5 counterexample: in imgA5 the path /f/x resolves to inode 3
although the intermediate component f names inode 2, a regular FILE: the
resolver descends into a non-directory.  The third conjunct records that
the component f indeed looks up to inode 2 in the root directory. -/
theorem find_inode_descends_into_file :
    (edfs_find_inode imgA5 [47, 102, 47, 120]).map Prod.fst = some 3 ∧
    (imgA5.inodeTable 2).type = EDFS_INODE_TYPE_FILE ∧
    edfs_lookup_scan imgA5 (imgA5.inodeTable 1) [102] 0
      (edfs_n_dir_entries imgA5) = some 2 := by
  refine ⟨by decide, rfl, by decide⟩

/-- Claim C5 witness: retyping the intermediate file inode 2 of imgA5 to a
directory does not change what /f/x resolves to, and a walk step whose
component (zz) has no matching entry fails. -/
theorem find_inode_ignores_inode_type_witness :
    ((edfs_find_inode (retypeInode imgA5 2 EDFS_INODE_TYPE_DIRECTORY)
        [47, 102, 47, 120]).map Prod.fst =
      (edfs_find_inode imgA5 [47, 102, 47, 120]).map Prod.fst) ∧
    edfs_walk imgA5 (4 + 1) (1, imgA5.inodeTable 1) [47, 122, 122] = none :=
  ⟨(find_inode_ignores_inode_type imgA5 [47, 102, 47, 120] 2
      EDFS_INODE_TYPE_DIRECTORY).1,
   (find_inode_ignores_inode_type imgA5 [47, 102, 47, 120] 2
      EDFS_INODE_TYPE_DIRECTORY).2 4 (1, imgA5.inodeTable 1) [47, 122, 122]
      47 [122, 122] (by decide) (by decide) (by decide) (by decide)⟩

/-- A list already of the right length is unchanged by padding. -/
theorem padTo_of_length (n : Nat) (l : List Nat) (h : l.length = n) :
    padTo n l = l := by
  simp only [padTo, List.take_append_eq_append_take, h, Nat.sub_self,
    List.take_zero, List.append_nil]
  exact List.take_of_length_le (by omega)

/-- The encoded directory entry is exactly one record, 64 bytes. -/
theorem length_encodeDirEntry (k : Nat) (name : List Nat) :
    (encodeDirEntry k name).length = 64 := by
  simp [encodeDirEntry, enc32, length_padTo, EDFS_FILENAME_SIZE]

/-- Extracting the spliced range returns the source. -/
theorem splice_extract (dst src : List Nat) (i : Nat)
    (h : i + src.length ≤ dst.length) :
    ((splice dst i src).drop i).take src.length = src := by
  have hlen : (dst.take i).length = i := by
    simp only [List.length_take]; omega
  have hA : (dst.take i).drop i = [] :=
    List.drop_eq_nil_of_le (le_of_eq hlen)
  simp only [splice, List.drop_append_eq_append_drop, hA, hlen,
    Nat.sub_self, List.drop_zero, List.nil_append, List.length_append]
  rw [show i - (i + src.length) = 0 from by omega, List.drop_zero,
    List.take_append_eq_append_take, List.take_of_length_le (le_refl _),
    Nat.sub_self, List.take_zero, List.append_nil]

/-- cString stops at the first NUL. -/
theorem cString_append_zero (l r : List Nat) (h : ∀ c ∈ l, c ≠ 0) :
    cString (l ++ 0 :: r) = l := by
  induction l with
  | nil => simp [cString, List.takeWhile]
  | cons a t ih =>
    have ha : (a != 0) = true := by
      simp only [bne_iff_ne, ne_eq]
      exact h a (by simp)
    have ht : ∀ c ∈ t, c ≠ 0 := fun c hc => h c (by simp [hc])
    simp only [cString, List.cons_append, List.takeWhile_cons, ha, if_true]
    simp only [cString] at ih
    rw [ih ht]

/-- Decoding the record built by edfs_add_dir_entry recovers the inumber
and the name, for an inumber below 2^32 and a NUL-free name of at most 59
bytes. -/
theorem decode_encodeDirEntry (k : Nat) (name : List Nat)
    (hk : k < 4294967296) (hnul : ∀ c ∈ name, c ≠ 0)
    (hlen : name.length ≤ 59) :
    decodeDirEntry (encodeDirEntry k name) =
      { inumber := k, filename := name } := by
  have hl1 : (name ++ [0]).length = name.length + 1 := by simp
  have hpad : padTo EDFS_FILENAME_SIZE (name ++ [0]) =
      name ++ 0 :: List.replicate (59 - name.length) 0 := by
    show ((name ++ [0]) ++ List.replicate 60 0).take 60 =
      name ++ 0 :: List.replicate (59 - name.length) 0
    rw [List.take_append_eq_append_take,
      List.take_of_length_le (by rw [hl1]; omega), List.take_replicate,
      List.append_assoc, List.singleton_append]
    congr 2
    rw [hl1]
    congr 1
    omega
  have hinum : le32At (encodeDirEntry k name) 0 = k := by
    have h0 : (encodeDirEntry k name).getD (4 * 0) 0 = k % 256 := rfl
    have h1 : (encodeDirEntry k name).getD (4 * 0 + 1) 0 = k / 256 % 256 := rfl
    have h2 : (encodeDirEntry k name).getD (4 * 0 + 2) 0 =
      k / 65536 % 256 := rfl
    have h3 : (encodeDirEntry k name).getD (4 * 0 + 3) 0 =
      k / 16777216 % 256 := rfl
    simp only [le32At, h0, h1, h2, h3]
    omega
  have hname : cString (((encodeDirEntry k name).drop 4).take
      EDFS_FILENAME_SIZE) = name := by
    have hdrop : (encodeDirEntry k name).drop 4 =
        padTo EDFS_FILENAME_SIZE (name ++ [0]) := by
      simp only [encodeDirEntry]
      rw [show (4 : Nat) = (enc32 k).length from by simp [enc32]]
      exact List.drop_left _ _
    rw [hdrop, List.take_of_length_le (by rw [length_padTo]), hpad]
    exact cString_append_zero name _ hnul
  simp only [decodeDirEntry, hinum, hname]

/-- The read loop with zero bytes left returns size at once. -/
theorem edfs_read_loop_n_zero (img : edfs_image_t) (ino : edfs_disk_inode_t)
    (size off : Nat) :
    ∀ fuel pos buf, edfs_read_loop img ino size off fuel 0 pos buf =
      ((size : Int), buf) := by
  intro fuel pos buf
  cases fuel with
  | zero => rfl
  | succ f => rfl

/-- The write loop with zero bytes left returns size at once. -/
theorem edfs_write_loop_n_zero (ino : edfs_disk_inode_t) (payload : List Nat)
    (size off : Nat) :
    ∀ fuel pos img, edfs_write_loop ino payload size off fuel 0 pos img =
      ((size : Int), img) := by
  intro fuel pos img
  cases fuel with
  | zero => rfl
  | succ f => rfl

/-- A block-read error can only be the missing-indirect-block -EIO. -/
theorem read_blk_err_eq (img : edfs_image_t) (ino : edfs_disk_inode_t)
    (id : Nat) (e : Int)
    (h : edfs_read_inode_data_blk img ino id = BlkRead.err e) : e = -errIo := by
  simp only [edfs_read_inode_data_blk] at h
  split at h
  · rename_i e2 heq
    have he : e2 = e := (BlkRead.err.injEq _ _).mp h
    subst he
    simp only [edfs_resolve_blk] at heq
    split at heq
    · exact absurd heq (by simp)
    · split at heq
      · have := (Except.error.injEq _ _).mp heq
        omega
      · exact absurd heq (by simp)
  · split at h
    · exact absurd h (by simp)
    · exact absurd h (by simp)

/-- A resolved, allocated block reads as its padded data. -/
theorem read_blk_of_resolve (img : edfs_image_t) (ino : edfs_disk_inode_t)
    (id block : Nat) (hres : edfs_resolve_blk img ino id = Except.ok block)
    (hbne : block ≠ EDFS_BLOCK_INVALID) :
    edfs_read_inode_data_blk img ino id =
      BlkRead.ok (padTo img.sb.block_size (img.blockData block)) := by
  simp only [edfs_read_inode_data_blk, hres, if_neg hbne]

/-- A resolved, allocated block writes as a point update of the data
region. -/
theorem write_blk_of_resolve (img : edfs_image_t) (ino : edfs_disk_inode_t)
    (id block : Nat) (buf : List Nat)
    (hres : edfs_resolve_blk img ino id = Except.ok block)
    (hbne : block ≠ EDFS_BLOCK_INVALID) :
    edfs_write_inode_data_blk img ino id buf =
      ((img.sb.block_size : Int),
        { img with blockData := fun b =>
            if b = block then padTo img.sb.block_size buf
            else img.blockData b }) := by
  simp only [edfs_write_inode_data_blk, hres, if_neg hbne]

/-- A successful block read comes from a resolved, allocated block. -/
theorem read_blk_ok_inv (img : edfs_image_t) (ino : edfs_disk_inode_t)
    (id : Nat) (bb : List Nat)
    (h : edfs_read_inode_data_blk img ino id = BlkRead.ok bb) :
    ∃ block, edfs_resolve_blk img ino id = Except.ok block ∧
      block ≠ EDFS_BLOCK_INVALID ∧
      bb = padTo img.sb.block_size (img.blockData block) := by
  simp only [edfs_read_inode_data_blk] at h
  split at h
  · exact absurd h (by simp)
  · rename_i block heq
    split at h
    · exact absurd h (by simp)
    · rename_i hbne
      exact ⟨block, heq, hbne, ((BlkRead.ok.injEq _ _).mp h).symm⟩

/-- Reading a range that fits inside one block takes a single loop
iteration: the result is the block-read outcome restricted to the range. -/
theorem read_inode_data_single_block (img : edfs_image_t)
    (ino : edfs_disk_inode_t) (buf : List Nat) (size off : Nat)
    (hsz : 0 < size)
    (hfit : size ≤ img.sb.block_size - off % img.sb.block_size)
    (hbuf : buf.length = size) :
    edfs_read_inode_data img ino buf size off =
      match edfs_read_inode_data_blk img ino (off / img.sb.block_size) with
      | BlkRead.err e => (e, buf)
      | BlkRead.hole => (0, buf)
      | BlkRead.ok bb =>
          ((size : Int), (bb.drop (off % img.sb.block_size)).take size) := by
  obtain ⟨s, rfl⟩ : ∃ s, size = s + 1 := ⟨size - 1, by omega⟩
  cases h : edfs_read_inode_data_blk img ino (off / img.sb.block_size) with
  | err e =>
    simp only [edfs_read_inode_data, edfs_read_loop,
      if_neg (Nat.succ_ne_zero s), h]
  | hole =>
    simp only [edfs_read_inode_data, edfs_read_loop,
      if_neg (Nat.succ_ne_zero s), h]
  | ok bb =>
    have hbblen : bb.length = img.sb.block_size :=
      read_blk_ok_length img ino _ bb h
    have hmin : min (s + 1)
        (img.sb.block_size - off % img.sb.block_size) = s + 1 := by omega
    have hsrc : ((bb.drop (off % img.sb.block_size)).take (s + 1)).length =
        s + 1 := by
      simp only [List.length_take, List.length_drop, hbblen]; omega
    simp only [edfs_read_inode_data, edfs_read_loop,
      if_neg (Nat.succ_ne_zero s), h, hmin, Nat.sub_self,
      edfs_read_loop_n_zero]
    rw [show splice buf 0 ((bb.drop (off % img.sb.block_size)).take (s + 1)) =
        (bb.drop (off % img.sb.block_size)).take (s + 1) from by
      simp only [splice, List.take_zero, List.nil_append, Nat.zero_add]
      rw [hsrc, List.drop_eq_nil_of_le (le_of_eq hbuf), List.append_nil]]

/-- Writing a range that fits inside one unallocated block returns 0 and
leaves the image unchanged. -/
theorem write_inode_data_single_block_hole (img : edfs_image_t)
    (ino : edfs_disk_inode_t) (payload : List Nat) (size off : Nat)
    (hsz : 0 < size)
    (hhole : edfs_read_inode_data_blk img ino
      (off / img.sb.block_size) = BlkRead.hole) :
    edfs_write_inode_data img ino payload size off = (0, img) := by
  obtain ⟨s, rfl⟩ : ∃ s, size = s + 1 := ⟨size - 1, by omega⟩
  simp only [edfs_write_inode_data, edfs_write_loop,
    if_neg (Nat.succ_ne_zero s), hhole]

/-- Writing a range that fits inside one allocated block read-modify-writes
exactly that block. -/
theorem write_inode_data_single_block_ok (img : edfs_image_t)
    (ino : edfs_disk_inode_t) (payload : List Nat) (size off block : Nat)
    (hB : 0 < img.sb.block_size) (hsz : 0 < size)
    (hfit : size ≤ img.sb.block_size - off % img.sb.block_size)
    (hlen : payload.length = size)
    (hres : edfs_resolve_blk img ino (off / img.sb.block_size) =
      Except.ok block)
    (hbne : block ≠ EDFS_BLOCK_INVALID) :
    edfs_write_inode_data img ino payload size off =
      ((size : Int),
        { img with
            blockData := fun b =>
              if b = block then
                padTo img.sb.block_size
                  (splice (padTo img.sb.block_size (img.blockData block))
                    (off % img.sb.block_size) payload)
              else img.blockData b }) := by
  obtain ⟨s, rfl⟩ : ∃ s, size = s + 1 := ⟨size - 1, by omega⟩
  have hread := read_blk_of_resolve img ino _ block hres hbne
  have hmin : min (s + 1)
      (img.sb.block_size - off % img.sb.block_size) = s + 1 := by omega
  have htake : (payload.drop (off - off)).take
      (min (s + 1) (img.sb.block_size - off % img.sb.block_size)) =
      payload := by
    rw [hmin, Nat.sub_self, List.drop_zero,
      List.take_of_length_le (le_of_eq hlen)]
  simp only [edfs_write_inode_data, edfs_write_loop,
    if_neg (Nat.succ_ne_zero s), hread, htake,
    write_blk_of_resolve img ino _ block _ hres hbne]
  have hpos : ¬ ((img.sb.block_size : Int) ≤ 0) := by
    have : (0 : Int) < img.sb.block_size := by exact_mod_cast hB
    omega
  rw [if_neg hpos, hmin, Nat.sub_self, edfs_write_loop_n_zero]

/-- Reading one directory-entry slot: with a block size of 64c, slot i
lives in logical block i / c at byte offset 64 * (i % c), and the read is a
single-block read. -/
theorem dir_slot_read_eq (img : edfs_image_t) (ino : edfs_disk_inode_t)
    (c : Nat) (hc : 0 < c) (hbs : img.sb.block_size = 64 * c) (i : Nat) :
    edfs_dir_slot_read img ino i =
      match edfs_read_inode_data_blk img ino (i / c) with
      | BlkRead.err e => (e, List.replicate 64 0)
      | BlkRead.hole => (0, List.replicate 64 0)
      | BlkRead.ok bb => ((64 : Int), (bb.drop (64 * (i % c))).take 64) := by
  have hdiv : (i * 64) / img.sb.block_size = i / c := by
    rw [hbs, Nat.mul_comm i 64]
    exact Nat.mul_div_mul_left i c (by omega)
  have hmod : (i * 64) % img.sb.block_size = 64 * (i % c) := by
    rw [hbs, Nat.mul_comm i 64]
    exact Nat.mul_mod_mul_left 64 i c
  have hfit : 64 ≤ img.sb.block_size - (i * 64) % img.sb.block_size := by
    rw [hmod, hbs]
    have h1 : i % c + 1 ≤ c := Nat.mod_lt _ hc
    have h2 : 64 * (i % c + 1) ≤ 64 * c := Nat.mul_le_mul_left 64 h1
    have h3 : 64 * (i % c + 1) = 64 * (i % c) + 64 := by ring
    omega
  have h1 := read_inode_data_single_block img ino (List.replicate 64 0) 64
    (i * 64) (by omega) hfit (by simp)
  simp only [edfs_dir_slot_read, EDFS_DIR_ENTRY_SIZE]
  rw [h1, hdiv, hmod]
  cases edfs_read_inode_data_blk img ino (i / c) <;> simp

/-- With block size 64c the directory scan bound is 4c slots, all inside
the direct blocks. -/
theorem n_dir_entries_eq (img : edfs_image_t) (c : Nat)
    (hbs : img.sb.block_size = 64 * c) :
    edfs_n_dir_entries img = 4 * c := by
  simp only [edfs_n_dir_entries, EDFS_INODE_N_DIRECT_BLOCKS,
    EDFS_DIR_ENTRY_SIZE, hbs]
  rw [show 4 * (64 * c) = 64 * (4 * c) from by ring]
  exact Nat.mul_div_cancel_left _ (by omega)

/-- If the directory contains a readable entry with the given name, the
insert scan reports -EEXIST (provided no slot read errors out first). -/
theorem add_scan_dup (img : edfs_image_t) (ino : edfs_disk_inode_t)
    (name : List Nat) :
    ∀ remaining i acc,
      (∀ j, i ≤ j → j < i + remaining → 0 ≤ (edfs_dir_slot_read img ino j).1) →
      (∃ j, i ≤ j ∧ j < i + remaining ∧
        (edfs_dir_slot_read img ino j).1 ≠ 0 ∧
        (decodeDirEntry (edfs_dir_slot_read img ino j).2).inumber ≠ 0 ∧
        (decodeDirEntry (edfs_dir_slot_read img ino j).2).filename = name) →
      edfs_add_scan img ino name i remaining acc =
        Except.error (-errExist) := by
  intro remaining
  induction remaining with
  | zero =>
    intro i acc _ h
    obtain ⟨j, h1, h2, _⟩ := h
    omega
  | succ rem ih =>
    intro i acc hok ⟨j, hj1, hj2, hjr, hji, hjn⟩
    have hi0 : 0 ≤ (edfs_dir_slot_read img ino i).1 :=
      hok i (le_refl _) (by omega)
    simp only [edfs_add_scan]
    rw [if_neg (by omega)]
    by_cases hz : (edfs_dir_slot_read img ino i).1 = 0
    · rw [if_pos hz]
      have hji' : j ≠ i := fun h => hjr (h ▸ hz)
      exact ih (i + 1) _ (fun j2 ha hb => hok j2 (by omega) (by omega))
        ⟨j, by omega, by omega, hjr, hji, hjn⟩
    · rw [if_neg hz]
      by_cases hinv : (decodeDirEntry
          (edfs_dir_slot_read img ino i).2).inumber = EDFS_BLOCK_INVALID
      · rw [if_pos hinv]
        have hji' : j ≠ i := by
          intro h
          subst h
          exact hji hinv
        exact ih (i + 1) _ (fun j2 ha hb => hok j2 (by omega) (by omega))
          ⟨j, by omega, by omega, hjr, hji, hjn⟩
      · rw [if_neg hinv]
        by_cases hmatch : (decodeDirEntry
            (edfs_dir_slot_read img ino i).2).filename = name
        · rw [if_pos hmatch]
        · rw [if_neg hmatch]
          have hji' : j ≠ i := by
            intro h
            subst h
            exact hmatch hjn
          exact ih (i + 1) _ (fun j2 ha hb => hok j2 (by omega) (by omega))
            ⟨j, by omega, by omega, hjr, hji, hjn⟩

/-- Once a reusable offset is chosen, a clean remainder of the scan (no
errors, no matching name) returns exactly that offset. -/
theorem add_scan_keep (img : edfs_image_t) (ino : edfs_disk_inode_t)
    (name : List Nat) :
    ∀ remaining i o,
      (∀ j, i ≤ j → j < i + remaining →
        0 ≤ (edfs_dir_slot_read img ino j).1 ∧
        ((edfs_dir_slot_read img ino j).1 ≠ 0 →
          (decodeDirEntry (edfs_dir_slot_read img ino j).2).inumber ≠ 0 →
          (decodeDirEntry (edfs_dir_slot_read img ino j).2).filename ≠ name)) →
      edfs_add_scan img ino name i remaining (some o) =
        Except.ok (some o) := by
  intro remaining
  induction remaining with
  | zero => intro i o _; rfl
  | succ rem ih =>
    intro i o hclean
    obtain ⟨hi0, hiname⟩ := hclean i (le_refl _) (by omega)
    simp only [edfs_add_scan]
    rw [if_neg (by omega)]
    have hacc : (if (some o : Option Nat) = none then
        some (i * EDFS_DIR_ENTRY_SIZE) else some o) = some o := by
      rw [if_neg (by simp)]
    by_cases hz : (edfs_dir_slot_read img ino i).1 = 0
    · rw [if_pos hz, hacc]
      exact ih (i + 1) o (fun j2 ha hb => hclean j2 (by omega) (by omega))
    · rw [if_neg hz]
      by_cases hinv : (decodeDirEntry
          (edfs_dir_slot_read img ino i).2).inumber = EDFS_BLOCK_INVALID
      · rw [if_pos hinv, hacc]
        exact ih (i + 1) o (fun j2 ha hb => hclean j2 (by omega) (by omega))
      · rw [if_neg hinv]
        rw [if_neg (hiname hz hinv)]
        exact ih (i + 1) o (fun j2 ha hb => hclean j2 (by omega) (by omega))

/-- A scan over slots that are all present with non-matching names keeps
the accumulator unchanged. -/
theorem add_scan_clean (img : edfs_image_t) (ino : edfs_disk_inode_t)
    (name : List Nat) :
    ∀ remaining i acc,
      (∀ j, i ≤ j → j < i + remaining →
        0 ≤ (edfs_dir_slot_read img ino j).1 ∧
        (edfs_dir_slot_read img ino j).1 ≠ 0 ∧
        (decodeDirEntry (edfs_dir_slot_read img ino j).2).inumber ≠ 0 ∧
        (decodeDirEntry (edfs_dir_slot_read img ino j).2).filename ≠ name) →
      edfs_add_scan img ino name i remaining acc = Except.ok acc := by
  intro remaining
  induction remaining with
  | zero => intro i acc _; rfl
  | succ rem ih =>
    intro i acc hfacts
    obtain ⟨hi0, hir, hii, hin⟩ := hfacts i (le_refl _) (by omega)
    have hii' : (decodeDirEntry (edfs_dir_slot_read img ino i).2).inumber ≠
      EDFS_BLOCK_INVALID := hii
    simp only [edfs_add_scan]
    rw [if_neg (by omega), if_neg hir, if_neg hii', if_neg hin]
    exact ih (i + 1) acc (fun j2 ha hb => hfacts j2 (by omega) (by omega))

/-- When slots before j0 are present with non-matching names, slot j0 is
reusable, and no later slot carries the name or an error, the scan starting
with an empty accumulator returns offset j0 * 64. -/
theorem add_scan_first (img : edfs_image_t) (ino : edfs_disk_inode_t)
    (name : List Nat) :
    ∀ remaining i j0,
      i ≤ j0 → j0 < i + remaining →
      (∀ j, i ≤ j → j < j0 →
        0 ≤ (edfs_dir_slot_read img ino j).1 ∧
        (edfs_dir_slot_read img ino j).1 ≠ 0 ∧
        (decodeDirEntry (edfs_dir_slot_read img ino j).2).inumber ≠ 0 ∧
        (decodeDirEntry (edfs_dir_slot_read img ino j).2).filename ≠ name) →
      ((edfs_dir_slot_read img ino j0).1 = 0 ∨
        (0 ≤ (edfs_dir_slot_read img ino j0).1 ∧
          (decodeDirEntry (edfs_dir_slot_read img ino j0).2).inumber = 0)) →
      (∀ j, j0 < j → j < i + remaining →
        0 ≤ (edfs_dir_slot_read img ino j).1 ∧
        ((edfs_dir_slot_read img ino j).1 ≠ 0 →
          (decodeDirEntry (edfs_dir_slot_read img ino j).2).inumber ≠ 0 →
          (decodeDirEntry (edfs_dir_slot_read img ino j).2).filename ≠ name)) →
      edfs_add_scan img ino name i remaining none =
        Except.ok (some (j0 * EDFS_DIR_ENTRY_SIZE)) := by
  intro remaining
  induction remaining with
  | zero => intro i j0 h1 h2 _ _ _; omega
  | succ rem ih =>
    intro i j0 hij0 hj0r hbefore hreuse hafter
    simp only [edfs_add_scan]
    by_cases hieq : i = j0
    · subst hieq
      rcases hreuse with hz | ⟨hge, hi0⟩
      · rw [if_neg (by omega), if_pos hz]
        show edfs_add_scan img ino name (i + 1) rem
          (some (i * EDFS_DIR_ENTRY_SIZE)) = _
        exact add_scan_keep img ino name rem (i + 1) _
          (fun j2 ha hb => hafter j2 (by omega) (by omega))
      · rw [if_neg (by omega)]
        by_cases hz : (edfs_dir_slot_read img ino i).1 = 0
        · rw [if_pos hz]
          show edfs_add_scan img ino name (i + 1) rem
            (some (i * EDFS_DIR_ENTRY_SIZE)) = _
          exact add_scan_keep img ino name rem (i + 1) _
            (fun j2 ha hb => hafter j2 (by omega) (by omega))
        · have hi0' : (decodeDirEntry
              (edfs_dir_slot_read img ino i).2).inumber =
              EDFS_BLOCK_INVALID := hi0
          rw [if_neg hz, if_pos hi0']
          show edfs_add_scan img ino name (i + 1) rem
            (some (i * EDFS_DIR_ENTRY_SIZE)) = _
          exact add_scan_keep img ino name rem (i + 1) _
            (fun j2 ha hb => hafter j2 (by omega) (by omega))
    · obtain ⟨hi0, hir, hii, hin⟩ := hbefore i (le_refl _) (by omega)
      have hii' : (decodeDirEntry (edfs_dir_slot_read img ino i).2).inumber ≠
        EDFS_BLOCK_INVALID := hii
      rw [if_neg (by omega), if_neg hir, if_neg hii', if_neg hin]
      exact ih (i + 1) j0 (by omega) (by omega)
        (fun j2 ha hb => hbefore j2 (by omega) hb) hreuse
        (fun j2 ha hb => hafter j2 ha (by omega))

/-- Reading back a directory slot whose physical block holds a spliced
64-byte payload at the slot's offset yields exactly that payload. -/
theorem dir_slot_read_back (im : edfs_image_t) (ino : edfs_disk_inode_t)
    (c j0 block : Nat) (payload dst : List Nat)
    (hc : 0 < c) (hbs : im.sb.block_size = 64 * c)
    (hres : edfs_resolve_blk im ino (j0 / c) = Except.ok block)
    (hbne : block ≠ EDFS_BLOCK_INVALID)
    (hbd : im.blockData block =
      padTo im.sb.block_size (splice dst (64 * (j0 % c)) payload))
    (hdst : dst.length = im.sb.block_size)
    (hpay : payload.length = 64) :
    edfs_dir_slot_read im ino j0 = ((64 : Int), payload) := by
  have hi64B : 64 * (j0 % c) + 64 ≤ im.sb.block_size := by
    rw [hbs]
    have h1 : j0 % c + 1 ≤ c := Nat.mod_lt _ hc
    have h2 : 64 * (j0 % c + 1) ≤ 64 * c := Nat.mul_le_mul_left 64 h1
    have h3 : 64 * (j0 % c + 1) = 64 * (j0 % c) + 64 := by ring
    omega
  have hsplen : (splice dst (64 * (j0 % c)) payload).length =
      im.sb.block_size := by
    rw [length_splice]
    · exact hdst
    · rw [hpay, hdst]
      omega
  have hread := read_blk_of_resolve im ino (j0 / c) block hres hbne
  rw [hbd, padTo_of_length im.sb.block_size
      (padTo im.sb.block_size (splice dst (64 * (j0 % c)) payload))
      (length_padTo _ _),
    padTo_of_length im.sb.block_size
      (splice dst (64 * (j0 % c)) payload) hsplen] at hread
  have hslot := dir_slot_read_eq im ino c hc hbs j0
  rw [hread] at hslot
  rw [hslot]
  show ((64 : Int),
    ((splice dst (64 * (j0 % c)) payload).drop (64 * (j0 % c))).take 64) =
    ((64 : Int), payload)
  have hex := splice_extract dst payload (64 * (j0 % c))
    (by rw [hpay, hdst]; omega)
  rw [hpay] at hex
  rw [hex]

/-- Claim C4 (amended): with a valid name, no read errors, and block size a
multiple of the 64-byte entry size, edfs_add_dir_entry (a) returns -EEXIST
and leaves the image unchanged when a present entry carries the name,
(b) returns -ENOMSG (DirectoryFull) and leaves the image unchanged when
every slot is present with a different name, and (c) targets the first
reusable slot j0 in slot order: when that slot is a hole the insert fails
with -EIO and the image is unchanged (the write path cannot allocate), and
when that slot is a readable invalid-sentinel entry the insert succeeds and
the slot reads back as the entry {k, name}. -/
theorem add_dir_entry_spec (img : edfs_image_t) (ino : edfs_disk_inode_t)
    (name : List Nat) (k c : Nat) (hc : 0 < c)
    (hbs : img.sb.block_size = 64 * c)
    (hname : edfs_check_filename name = 0)
    (hnoerr : ∀ j, j < edfs_n_dir_entries img →
      0 ≤ (edfs_dir_slot_read img ino j).1) :
    ((∃ j, j < edfs_n_dir_entries img ∧
        (edfs_dir_slot_read img ino j).1 ≠ 0 ∧
        (decodeDirEntry (edfs_dir_slot_read img ino j).2).inumber ≠ 0 ∧
        (decodeDirEntry (edfs_dir_slot_read img ino j).2).filename = name) →
      edfs_add_dir_entry img ino name k = (-errExist, img)) ∧
    ((∀ j, j < edfs_n_dir_entries img →
        (edfs_dir_slot_read img ino j).1 ≠ 0 ∧
        (decodeDirEntry (edfs_dir_slot_read img ino j).2).inumber ≠ 0 ∧
        (decodeDirEntry (edfs_dir_slot_read img ino j).2).filename ≠ name) →
      edfs_add_dir_entry img ino name k = (-errNoMsg, img)) ∧
    (∀ j0, j0 < edfs_n_dir_entries img →
      ((edfs_dir_slot_read img ino j0).1 = 0 ∨
        (decodeDirEntry (edfs_dir_slot_read img ino j0).2).inumber = 0) →
      (∀ j, j < j0 →
        (edfs_dir_slot_read img ino j).1 ≠ 0 ∧
        (decodeDirEntry (edfs_dir_slot_read img ino j).2).inumber ≠ 0 ∧
        (decodeDirEntry (edfs_dir_slot_read img ino j).2).filename ≠ name) →
      (∀ j, j < edfs_n_dir_entries img →
        (edfs_dir_slot_read img ino j).1 ≠ 0 →
        (decodeDirEntry (edfs_dir_slot_read img ino j).2).inumber ≠ 0 →
        (decodeDirEntry (edfs_dir_slot_read img ino j).2).filename ≠ name) →
      (((edfs_dir_slot_read img ino j0).1 = 0 →
          edfs_add_dir_entry img ino name k = (-errIo, img)) ∧
       ((edfs_dir_slot_read img ino j0).1 ≠ 0 → k < 4294967296 →
          (edfs_add_dir_entry img ino name k).1 = 0 ∧
          (edfs_dir_slot_read (edfs_add_dir_entry img ino name k).2 ino
            j0).1 = 64 ∧
          decodeDirEntry (edfs_dir_slot_read
            (edfs_add_dir_entry img ino name k).2 ino j0).2 =
            { inumber := k, filename := name }))) := by
  have hchk : ¬ (edfs_check_filename name ≠ 0) := not_not_intro hname
  refine ⟨?_, ?_, ?_⟩
  · rintro ⟨j, hj, hjr, hji, hjn⟩
    have hscan := add_scan_dup img ino name (edfs_n_dir_entries img) 0 none
      (fun j2 _h0 hb => hnoerr j2 (by omega))
      ⟨j, by omega, by omega, hjr, hji, hjn⟩
    simp only [edfs_add_dir_entry, if_neg hchk, hscan]
  · intro hall
    have hscan := add_scan_clean img ino name (edfs_n_dir_entries img) 0 none
      (fun j2 _h0 hb => ⟨hnoerr j2 (by omega), (hall j2 (by omega)).1,
        (hall j2 (by omega)).2.1, (hall j2 (by omega)).2.2⟩)
    simp only [edfs_add_dir_entry, if_neg hchk, hscan]
  · intro j0 hj0lt hreuse hbefore hnodup
    have hBpos : 0 < img.sb.block_size := by rw [hbs]; omega
    have hdiv : (j0 * 64) / img.sb.block_size = j0 / c := by
      rw [hbs, Nat.mul_comm j0 64]
      exact Nat.mul_div_mul_left j0 c (by omega)
    have hmod : (j0 * 64) % img.sb.block_size = 64 * (j0 % c) := by
      rw [hbs, Nat.mul_comm j0 64]
      exact Nat.mul_mod_mul_left 64 j0 c
    have hi64B : 64 * (j0 % c) + 64 ≤ img.sb.block_size := by
      rw [hbs]
      have h1 : j0 % c + 1 ≤ c := Nat.mod_lt _ hc
      have h2 : 64 * (j0 % c + 1) ≤ 64 * c := Nat.mul_le_mul_left 64 h1
      have h3 : 64 * (j0 % c + 1) = 64 * (j0 % c) + 64 := by ring
      omega
    have hfit : 64 ≤ img.sb.block_size - (j0 * 64) % img.sb.block_size := by
      rw [hmod]; omega
    have hlt4 : j0 / c < EDFS_INODE_N_DIRECT_BLOCKS := by
      rw [n_dir_entries_eq img c hbs] at hj0lt
      have := (Nat.div_lt_iff_lt_mul hc).mpr
        (by rw [Nat.mul_comm] at hj0lt ⊢; exact hj0lt)
      exact this
    have hreuse2 : (edfs_dir_slot_read img ino j0).1 = 0 ∨
        (0 ≤ (edfs_dir_slot_read img ino j0).1 ∧
          (decodeDirEntry (edfs_dir_slot_read img ino j0).2).inumber = 0) := by
      rcases hreuse with h | h
      · exact Or.inl h
      · exact Or.inr ⟨hnoerr j0 hj0lt, h⟩
    have hscan := add_scan_first img ino name (edfs_n_dir_entries img) 0 j0
      (by omega) (by omega)
      (fun j _ha hb => ⟨hnoerr j (by omega), (hbefore j hb).1,
        (hbefore j hb).2.1, (hbefore j hb).2.2⟩)
      hreuse2
      (fun j ha hb => ⟨hnoerr j (by omega),
        fun h1 h2 => hnodup j (by omega) h1 h2⟩)
    have hslot := dir_slot_read_eq img ino c hc hbs j0
    constructor
    · intro hz
      have hhole : edfs_read_inode_data_blk img ino (j0 / c) =
          BlkRead.hole := by
        rcases hcase : edfs_read_inode_data_blk img ino (j0 / c) with
          e | _ | bb
        · rw [hslot, hcase] at hz
          have he := read_blk_err_eq img ino (j0 / c) e hcase
          simp only [errIo] at he
          simp only at hz
          exfalso
          omega
        · rfl
        · rw [hslot, hcase] at hz
          simp at hz
      have hw := write_inode_data_single_block_hole img ino
        (encodeDirEntry k name) 64 (j0 * 64) (by omega)
        (by rw [hdiv]; exact hhole)
      simp only [edfs_add_dir_entry, if_neg hchk, hscan,
        EDFS_DIR_ENTRY_SIZE, hw]
      norm_num
    · intro hretne hk
      obtain ⟨hlen0, hlen59, hnul⟩ := check_filename_ok_facts name hname
      obtain ⟨bb, hcase⟩ : ∃ bb, edfs_read_inode_data_blk img ino (j0 / c) =
          BlkRead.ok bb := by
        rcases hcase : edfs_read_inode_data_blk img ino (j0 / c) with
          e | _ | bb
        · have hge := hnoerr j0 hj0lt
          rw [hslot, hcase] at hge
          have he := read_blk_err_eq img ino (j0 / c) e hcase
          simp only [errIo] at he
          simp only at hge
          exfalso
          omega
        · rw [hslot, hcase] at hretne
          simp at hretne
        · exact ⟨bb, rfl⟩
      obtain ⟨block, hres, hbne, _hbbdef⟩ :=
        read_blk_ok_inv img ino (j0 / c) bb hcase
      have hw := write_inode_data_single_block_ok img ino
        (encodeDirEntry k name) 64 (j0 * 64) block hBpos (by omega) hfit
        (length_encodeDirEntry k name) (by rw [hdiv]; exact hres) hbne
      rw [hmod] at hw
      have hadd : edfs_add_dir_entry img ino name k = (0,
          { img with
              blockData := fun b =>
                if b = block then
                  padTo img.sb.block_size
                    (splice (padTo img.sb.block_size (img.blockData block))
                      (64 * (j0 % c)) (encodeDirEntry k name))
                else img.blockData b }) := by
        simp only [edfs_add_dir_entry, if_neg hchk, hscan,
          EDFS_DIR_ENTRY_SIZE, hw]
        norm_num
      rw [hadd]
      have hres2 : edfs_resolve_blk
          { img with
              blockData := fun b =>
                if b = block then
                  padTo img.sb.block_size
                    (splice (padTo img.sb.block_size (img.blockData block))
                      (64 * (j0 % c)) (encodeDirEntry k name))
                else img.blockData b } ino (j0 / c) = Except.ok block := by
        simp only [edfs_resolve_blk, if_pos hlt4] at hres ⊢
        exact hres
      have hback := dir_slot_read_back
        { img with
            blockData := fun b =>
              if b = block then
                padTo img.sb.block_size
                  (splice (padTo img.sb.block_size (img.blockData block))
                    (64 * (j0 % c)) (encodeDirEntry k name))
              else img.blockData b } ino c j0 block (encodeDirEntry k name)
        (padTo img.sb.block_size (img.blockData block)) hc hbs hres2 hbne
        (by simp) (length_padTo _ _) (length_encodeDirEntry k name)
      refine ⟨rfl, ?_, ?_⟩
      · rw [hback]
      · rw [hback]
        exact decode_encodeDirEntry k name hk hnul hlen59

/-- Claim C4 counterexample: inserting the (absent) name "a" into a freshly
created directory — all entry slots are holes, so a reusable slot exists —
does not write the entry: it fails with -EIO because the data-write path
cannot allocate the hole block.  The second conjunct records that every
slot of the directory is a hole. -/
theorem add_dir_entry_hole_slot_fails :
    edfs_add_dir_entry imgA4 inoA4 [97] 5 = (-errIo, imgA4) ∧
    (∀ j, j < edfs_n_dir_entries imgA4 →
      (edfs_dir_slot_read imgA4 inoA4 j).1 = 0) := by
  constructor
  · rfl
  · decide

/-- Claim C4 witness: inserting the duplicate name "ab" into a concrete
directory returns -EEXIST with the image unchanged; inserting "xy" into a
directory whose first slot is a cleared (invalid-sentinel) entry succeeds
and the slot reads back as the entry {7, "xy"}. -/
theorem add_dir_entry_spec_witness :
    edfs_add_dir_entry imgW4a inoW4 [97, 98] 9 = (-errExist, imgW4a) ∧
    ((edfs_add_dir_entry imgW4b inoW4 [120, 121] 7).1 = 0 ∧
     (edfs_dir_slot_read (edfs_add_dir_entry imgW4b inoW4 [120, 121] 7).2
       inoW4 0).1 = 64 ∧
     decodeDirEntry (edfs_dir_slot_read
       (edfs_add_dir_entry imgW4b inoW4 [120, 121] 7).2 inoW4 0).2 =
       { inumber := 7, filename := [120, 121] }) :=
  ⟨(add_dir_entry_spec imgW4a inoW4 [97, 98] 9 1 (by decide) (by decide)
      (by decide) (by decide)).1
    ⟨0, by decide, by decide, by decide, by decide⟩,
   ((add_dir_entry_spec imgW4b inoW4 [120, 121] 7 1 (by decide) (by decide)
      (by decide) (by decide)).2.2 0 (by decide) (Or.inr (by decide))
      (by decide) (by decide)).2 (by decide) (by decide)⟩
